import Mathlib

/-!
Verification development for the zkpGethEth execution core: a shallow
embedding of the RISC-V 64-bit simulator (rrs-lib instruction executor and
hart state), the risc0-nova memory monitor, the instruction decoder, and
the ELF symbol-patching pass, together with theorems settling the frozen
claims about them.

Machine integers are embedded as Nat (values below 2^64 or 2^32), with
wrap-around written explicitly as % 2^64.  Rust panics (unwrap, assert,
unreachable) are embedded as the none case of Option valued functions, or
as a dedicated panic constructor where the distinction between a returned
error value and a panic matters.
-/

namespace ZkVM

/-! ## Little-endian byte packing inside 64-bit cells

Memory regions store 64-bit cells; byte accesses read or replace one byte
of a cell (rrs-lib memories.rs is not present under src; modelled from the
spec, section 4.4: byte accesses are converted to reads of and partial
writes to the appropriate 64-bit cell with little-endian packing). -/

/-- Modelled from the spec: extract byte number off (little-endian) from a
cell value. -/
def getByte (cell off : Nat) : Nat := cell / 2 ^ (8 * off) % 256

/-- Modelled from the spec: replace byte number off (little-endian) of a
cell value with b (truncated to 8 bits). -/
def setByte (cell off b : Nat) : Nat :=
  cell / 2 ^ (8 * (off + 1)) * 2 ^ (8 * (off + 1))
    + b % 256 * 2 ^ (8 * off) + cell % 2 ^ (8 * off)

/-- Little-endian byte list of a value, n bytes long; mirrors the Rust
to_le_bytes conversions used by the monitor store path. -/
def leBytes : Nat → Nat → List Nat
  | 0, _ => []
  | n + 1, v => v % 256 :: leBytes n (v / 256)

/-- Little-endian assembly of a byte list into a value; mirrors the Rust
from_le_bytes conversions used by the monitor load path. -/
def assembleLE : List Nat → Nat
  | [] => 0
  | b :: bs => b + 256 * assembleLE bs

/-! ## Memory regions and the memory space

Modelled from the spec, sections 3 and 4.4 (rrs-lib memories.rs is not
present under src): a region is a contiguous span from base to base+size
backed by a vector of 64-bit cells; a memory space is an ordered
collection of regions; each access locates the containing region, and an
access outside every region yields none or false. -/

/-- Modelled from the spec: a contiguous memory region, a tuple of base,
size and a vector of 64-bit cells. -/
structure MemoryRegion where
  base : Nat
  size : Nat
  cells : List Nat
deriving DecidableEq

/-- Modelled from the spec: whether addr falls inside the region span. -/
def MemoryRegion.containsB (r : MemoryRegion) (addr : Nat) : Bool :=
  decide (r.base ≤ addr) && decide (addr < r.base + r.size)

/-- Modelled from the spec: read the byte at addr from a region assumed to
contain it, little-endian inside the 64-bit cell. -/
def MemoryRegion.readByteIn (r : MemoryRegion) (addr : Nat) : Nat :=
  getByte (r.cells.getD ((addr - r.base) / 8) 0) ((addr - r.base) % 8)

/-- Modelled from the spec: write the byte at addr in a region assumed to
contain it, replacing one byte of the 64-bit cell. -/
def MemoryRegion.writeByteIn (r : MemoryRegion) (addr b : Nat) : MemoryRegion :=
  let ci := (addr - r.base) / 8
  let off := (addr - r.base) % 8
  { r with cells := r.cells.set ci (setByte (r.cells.getD ci 0) off b) }

/-- Region well-formedness: the cell vector has length size divided by 8
(the spec fixes storage as a vector of 64-bit cells of length size/8). -/
def MemoryRegion.WF (r : MemoryRegion) : Prop := 8 * r.cells.length = r.size

/-- Modelled from the spec: ordered collection of memory regions. -/
structure MemorySpace where
  regions : List MemoryRegion
deriving DecidableEq

/-- Byte read across a region list: the first containing region answers. -/
def readByteList : List MemoryRegion → Nat → Option Nat
  | [], _ => none
  | r :: rs, a => if r.containsB a then some (r.readByteIn a) else readByteList rs a

/-- Byte write across a region list: the first containing region is
updated; false reports that no region contains the address. -/
def writeByteList : List MemoryRegion → Nat → Nat → List MemoryRegion × Bool
  | [], _, _ => ([], false)
  | r :: rs, a, b =>
    if r.containsB a then (r.writeByteIn a b :: rs, true)
    else
      let p := writeByteList rs a b
      (r :: p.1, p.2)

/-- Modelled from the spec: MemorySpace read_mem at Byte size. -/
def MemorySpace.read_mem_byte (sp : MemorySpace) (addr : Nat) : Option Nat :=
  readByteList sp.regions addr

/-- Modelled from the spec: MemorySpace write_mem at Byte size. -/
def MemorySpace.write_mem_byte (sp : MemorySpace) (addr b : Nat) :
    MemorySpace × Bool :=
  let p := writeByteList sp.regions addr b
  (⟨p.1⟩, p.2)

/-- Whether some region of the space contains the address. -/
def MemorySpace.inRange (sp : MemorySpace) (addr : Nat) : Bool :=
  sp.regions.any (fun r => r.containsB addr)

/-- Space well-formedness: every region is well-formed. -/
def MemorySpace.WF (sp : MemorySpace) : Prop := ∀ r ∈ sp.regions, r.WF

/-! ## Pending byte writes

The monitor buffers byte-granular writes in a BTreeSet of MemStore records
(monitor.rs, MemStore with derived Eq and Ord over the field pair
addr, data).  The set is embedded as a list kept strictly sorted in the
derived lexicographic order, which is also the iteration order used by
commit. -/

/-- MemStore from monitor.rs: one pending byte write. -/
structure MemStore where
  addr : Nat
  data : Nat
deriving DecidableEq

/-- Derived lexicographic strict order of MemStore: by addr, then by data
(the Rust derive of Ord compares fields in declaration order). -/
def MemStore.sltB (x y : MemStore) : Bool :=
  decide (x.addr < y.addr) || (decide (x.addr = y.addr) && decide (x.data < y.data))

/-- BTreeSet insert on the sorted-list embedding: place the record at its
ordered position, keeping nothing when an equal record is present. -/
def insertStore : List MemStore → MemStore → List MemStore
  | [], s => [s]
  | x :: xs, s =>
    if MemStore.sltB s x then s :: x :: xs
    else if s = x then x :: xs
    else x :: insertStore xs s

/-- Strict sortedness in the derived order; BTreeSet iteration follows it. -/
def StoresSorted (l : List MemStore) : Prop :=
  l.Pairwise (fun x y => MemStore.sltB x y = true)

/-- Data of the last list entry carrying the given address, in iteration
order; for the sorted pending set this is the entry with greatest data. -/
def lastDataAt : List MemStore → Nat → Option Nat
  | [], _ => none
  | e :: rest, a =>
    match lastDataAt rest a with
    | some d => some d
    | none => if e.addr = a then some e.data else none

/-- Commit loop over the pending set (monitor.rs commit): apply each byte
write in iteration order; writes outside every region are collected as the
logged out-of-bound addresses and otherwise skipped. -/
def commitWrites : MemorySpace → List MemStore → MemorySpace × List Nat
  | sp, [] => (sp, [])
  | sp, e :: rest =>
    let p := sp.write_mem_byte e.addr e.data
    let q := commitWrites p.1 rest
    (q.1, (if p.2 then ([] : List Nat) else [e.addr]) ++ q.2)

/-! ## The memory monitor

Embedding of monitor.rs.  Rust panics (unwrap of a missing region,
alignment assertions, commit without a saved op result) are the none case
of the Option results. -/

/-- OpCodeResult, modelled from the spec section 3 (the module exec/mod.rs
declaring it is not present under src): optional syscall record plus the
pc-updated flag; the syscall payload is irrelevant to the claims and is
embedded as a Nat token. -/
structure OpCodeResult where
  syscall : Option Nat
  pc_updated : Bool
deriving DecidableEq

/-- Platform memory-map constants (risc0-zkvm-platform is not present
under src; modelled from the spec section 6).  Monitor operations take
them as a parameter. -/
structure Platform where
  stack_initial_address : Nat
  system_start : Nat
deriving DecidableEq

/-- MemoryMonitor state from monitor.rs. -/
structure MemoryMonitor where
  space : MemorySpace
  pending_writes : List MemStore
  op_result : Option OpCodeResult
  syscalls : List Nat
  initial : Bool
deriving DecidableEq

/-- Register slot address in the memory-mapped register file
(monitor.rs get_register_addr). -/
def get_register_addr (P : Platform) (idx : Nat) : Nat :=
  P.system_start + idx * 8

namespace MemoryMonitor

/-- Byte load (monitor.rs load_u8); none embeds the unwrap panic on an
address outside every region. -/
def load_u8 (m : MemoryMonitor) (addr : Nat) : Option Nat :=
  m.space.read_mem_byte addr

/-- Consecutive byte loads (monitor.rs load_array). -/
def load_bytes (m : MemoryMonitor) : Nat → Nat → Option (List Nat)
  | 0, _ => some []
  | n + 1, addr => do
    let b ← m.load_u8 addr
    let rest ← m.load_bytes n (addr + 1)
    pure (b :: rest)

/-- Halfword load (monitor.rs load_u16); none embeds the alignment
assertion and region panics. -/
def load_u16 (m : MemoryMonitor) (addr : Nat) : Option Nat :=
  if addr % 2 = 0 then (m.load_bytes 2 addr).map assembleLE else none

/-- Word load (monitor.rs load_u32). -/
def load_u32 (m : MemoryMonitor) (addr : Nat) : Option Nat :=
  if addr % 4 = 0 then (m.load_bytes 4 addr).map assembleLE else none

/-- Doubleword load (monitor.rs load_u64). -/
def load_u64 (m : MemoryMonitor) (addr : Nat) : Option Nat :=
  if addr % 8 = 0 then (m.load_bytes 8 addr).map assembleLE else none

/-- Byte store (monitor.rs store_u8): insert a pending write record. -/
def store_u8 (m : MemoryMonitor) (addr data : Nat) : MemoryMonitor :=
  { m with pending_writes := insertStore m.pending_writes ⟨addr, data⟩ }

/-- Byte-slice store (monitor.rs store_region). -/
def store_region (m : MemoryMonitor) (addr : Nat) : List Nat → MemoryMonitor :=
  fun slice =>
    match slice, addr, m with
    | [], _, m => m
    | x :: xs, addr, m => store_region (m.store_u8 addr x) (addr + 1) xs

/-- Halfword store (monitor.rs store_u16); none embeds the alignment
assertion. -/
def store_u16 (m : MemoryMonitor) (addr data : Nat) : Option MemoryMonitor :=
  if addr % 2 = 0 then some (m.store_region addr (leBytes 2 data)) else none

/-- Word store (monitor.rs store_u32). -/
def store_u32 (m : MemoryMonitor) (addr data : Nat) : Option MemoryMonitor :=
  if addr % 4 = 0 then some (m.store_region addr (leBytes 4 data)) else none

/-- Doubleword store (monitor.rs store_u64). -/
def store_u64 (m : MemoryMonitor) (addr data : Nat) : Option MemoryMonitor :=
  if addr % 8 = 0 then some (m.store_region addr (leBytes 8 data)) else none

/-- Register load (monitor.rs load_register): on the first-ever read of
register 2 the monitor sets the initial flag, stores the configured stack
address into the register slot and returns it; every other read loads the
slot from the image. -/
def load_register (P : Platform) (m : MemoryMonitor) (idx : Nat) :
    Option (Nat × MemoryMonitor) :=
  if idx = 2 ∧ m.initial = false then
    match store_u64 { m with initial := true } (get_register_addr P idx)
        P.stack_initial_address with
    | none => none
    | some m2 => some (P.stack_initial_address, m2)
  else
    (m.load_u64 (get_register_addr P idx)).map (fun v => (v, m))

/-- Register store (monitor.rs store_register): a zero store to register 2
is rewritten to the configured stack address; everything else stores the
given data into the register slot. -/
def store_register (P : Platform) (m : MemoryMonitor) (idx data : Nat) :
    Option MemoryMonitor :=
  if idx = 2 ∧ data = 0 then
    m.store_u64 (get_register_addr P idx) P.stack_initial_address
  else
    m.store_u64 (get_register_addr P idx) data

/-- Buffer the op result of the in-flight instruction (monitor.rs
save_op). -/
def save_op (m : MemoryMonitor) (r : OpCodeResult) : MemoryMonitor :=
  { m with op_result := some r }

/-- Commit (monitor.rs commit): apply the pending writes in iteration
order, collecting the logged out-of-bound addresses, clear the buffer,
take the op result (none embeds the unwrap panic when no op result was
saved) and append its syscall record if any. -/
def commit (m : MemoryMonitor) : Option (MemoryMonitor × List Nat) :=
  let p := commitWrites m.space m.pending_writes
  match m.op_result with
  | none => none
  | some r =>
    some ({ m with
            space := p.1
            pending_writes := []
            op_result := none
            syscalls := m.syscalls
              ++ (match r.syscall with | some sc => [sc] | none => []) },
      p.2)

end MemoryMonitor

/-- Memory access widths (rrs-lib lib.rs MemAccessSize). -/
inductive MemAccessSize
  | Byte
  | HalfWord
  | Word
  | DoubleWord
deriving DecidableEq

/-- Memory trait implementation of the monitor (monitor.rs impl Memory for
MemoryMonitor): every outcome that returns at all is a some for reads and
a true flag for writes; the outer Option embeds the panics inside the
load and store helpers. -/
def MemoryMonitor.read_mem (m : MemoryMonitor) (addr : Nat)
    (size : MemAccessSize) : Option (Option Nat) :=
  match size with
  | .Byte => (m.load_u8 addr).map some
  | .HalfWord => (m.load_u16 addr).map some
  | .Word => (m.load_u32 addr).map some
  | .DoubleWord => (m.load_u64 addr).map some

/-- Memory trait write of the monitor (monitor.rs write_mem): the data is
truncated to the access width exactly as the Rust integer casts do, and
true is always returned. -/
def MemoryMonitor.write_mem (m : MemoryMonitor) (addr : Nat)
    (size : MemAccessSize) (data : Nat) : Option (MemoryMonitor × Bool) :=
  match size with
  | .Byte => some (m.store_u8 addr (data % 2 ^ 8), true)
  | .HalfWord => (m.store_u16 addr (data % 2 ^ 16)).map (fun m2 => (m2, true))
  | .Word => (m.store_u32 addr (data % 2 ^ 32)).map (fun m2 => (m2, true))
  | .DoubleWord => (m.store_u64 addr data).map (fun m2 => (m2, true))

/-! ## Hart state and the instruction executor

Embedding of rrs-lib lib.rs (HartState) and instruction_executor.rs.  The
executor is generic over the Memory trait; the trait is embedded as a
record of a read function and a write function over an abstract memory
state type. -/

/-- HartState from rrs-lib lib.rs: 32 registers, program counter and the
diagnostic index of the last register write. -/
structure HartState where
  registers : List Nat
  pc : Nat
  last_register_write : Option Nat
deriving DecidableEq

/-- Register write with zero-register handling (lib.rs write_register):
writes to index 0 return with no change at all. -/
def HartState.write_register (st : HartState) (reg_index data : Nat) :
    HartState :=
  if reg_index = 0 then st
  else { st with registers := st.registers.set reg_index data,
                 last_register_write := some reg_index }

/-- Register read with zero-register handling (lib.rs read_register). -/
def HartState.read_register (st : HartState) (reg_index : Nat) : Nat :=
  if reg_index = 0 then 0 else st.registers.getD reg_index 0

/-- InstructionException from instruction_executor.rs. -/
inductive InstructionException
  | IllegalInstruction (pc insn : Nat)
  | FetchError (pc : Nat)
  | LoadAccessFault (addr : Nat)
  | StoreAccessFault (addr : Nat)
  | AlignmentFault (addr : Nat)
deriving DecidableEq

/-- Modelled from the spec: decoded I-type instruction record
(instruction_formats.rs is not present under src); rd and rs1 register
indices plus the sign-extended immediate. -/
structure IType where
  rd : Nat
  rs1 : Nat
  imm : Int
deriving DecidableEq

/-- Modelled from the spec: decoded S-type instruction record. -/
structure SType where
  rs1 : Nat
  rs2 : Nat
  imm : Int
deriving DecidableEq

/-- Modelled from the spec: decoded R-type instruction record. -/
structure RType where
  rd : Nat
  rs1 : Nat
  rs2 : Nat
deriving DecidableEq

/-- Modelled from the spec: decoded A-type (atomic) instruction record. -/
structure AType where
  rd : Nat
  rs1 : Nat
  rs2 : Nat
deriving DecidableEq

/-- Memory trait of rrs-lib lib.rs, embedded as a record of pure
functions over an abstract memory state. -/
structure MemIface (σ : Type) where
  read_mem : σ → Nat → MemAccessSize → Option Nat
  write_mem : σ → Nat → MemAccessSize → Nat → σ × Bool

/-- InstructionExecutor state: hart state plus the memory it drives. -/
structure Exec (σ : Type) where
  hart_state : HartState
  mem : σ

/-- Alignment mask per access size (instruction_executor.rs align_mask
match). -/
def align_mask : MemAccessSize → Nat
  | .Byte => 0x0
  | .HalfWord => 0x1
  | .Word => 0x3
  | .DoubleWord => 0x7

/-- Interpretation of the stored i32 immediate as a u64 (the Rust cast
imm as u64 sign-extends and reinterprets). -/
def immU64 (i : Int) : Nat := (i % 2 ^ 64).toNat

/-- Sign extension of the low bits of a loaded value to 64 bits, as the
Rust casts through i8/i16/i32 do. -/
def sext (bits d : Nat) : Nat :=
  let low := d % 2 ^ bits
  if low < 2 ^ (bits - 1) then low else low + (2 ^ 64 - 2 ^ bits)

/-- Sign extension selected by access size (instruction_executor.rs load
data match). -/
def sign_extend_load (size : MemAccessSize) (d : Nat) : Nat :=
  match size with
  | .Byte => sext 8 d
  | .HalfWord => sext 16 d
  | .Word => sext 32 d
  | .DoubleWord => d % 2 ^ 64

/-- Load execution (instruction_executor.rs execute_load). -/
def execute_load {σ : Type} (M : MemIface σ) (e : Exec σ) (dec : IType)
    (size : MemAccessSize) (signed : Bool) :
    Except InstructionException (Exec σ) :=
  let addr := (e.hart_state.read_register dec.rs1 + immU64 dec.imm) % 2 ^ 64
  if addr &&& align_mask size ≠ 0 then .error (.AlignmentFault addr)
  else
    match M.read_mem e.mem addr size with
    | none => .error (.LoadAccessFault addr)
    | some d =>
      let d2 := if signed then sign_extend_load size d else d
      .ok { e with hart_state := e.hart_state.write_register dec.rd d2 }

/-- Store execution (instruction_executor.rs execute_store). -/
def execute_store {σ : Type} (M : MemIface σ) (e : Exec σ) (dec : SType)
    (size : MemAccessSize) :
    Except InstructionException (Exec σ) :=
  let addr := (e.hart_state.read_register dec.rs1 + immU64 dec.imm) % 2 ^ 64
  let data := e.hart_state.read_register dec.rs2
  if addr &&& align_mask size ≠ 0 then .error (.AlignmentFault addr)
  else
    let p := M.write_mem e.mem addr size data
    if p.2 then .ok { e with mem := p.1 }
    else .error (.StoreAccessFault addr)

/-- Reservation-less load-reserved execution (instruction_executor.rs
execute_amo_load): aligned load that always sign-extends per size. -/
def execute_amo_load {σ : Type} (M : MemIface σ) (e : Exec σ) (dec : AType)
    (size : MemAccessSize) :
    Except InstructionException (Exec σ) :=
  let addr := e.hart_state.read_register dec.rs1
  if addr &&& align_mask size ≠ 0 then .error (.AlignmentFault addr)
  else
    match M.read_mem e.mem addr size with
    | none => .error (.LoadAccessFault addr)
    | some d =>
      .ok { e with
        hart_state := e.hart_state.write_register dec.rd (sign_extend_load size d) }

/-- Unconditional store-conditional execution (instruction_executor.rs
execute_amo_store): aligned store that writes zero to rd on success. -/
def execute_amo_store {σ : Type} (M : MemIface σ) (e : Exec σ) (dec : AType)
    (size : MemAccessSize) :
    Except InstructionException (Exec σ) :=
  let addr := e.hart_state.read_register dec.rs1
  let data := e.hart_state.read_register dec.rs2
  if addr &&& align_mask size ≠ 0 then .error (.AlignmentFault addr)
  else
    let p := M.write_mem e.mem addr size data
    if p.2 then
      .ok { hart_state := (e.hart_state.write_register dec.rd 0), mem := p.1 }
    else .error (.StoreAccessFault addr)

/-- Word atomic read-modify-write (instruction_executor.rs execute_amow):
note the absence of any alignment check. -/
def execute_amow {σ : Type} (M : MemIface σ) (e : Exec σ) (dec : AType)
    (op : Nat → Nat → Nat) :
    Except InstructionException (Exec σ) :=
  let rs1_addr := e.hart_state.read_register dec.rs1
  match M.read_mem e.mem rs1_addr .Word with
  | none => .error (.LoadAccessFault rs1_addr)
  | some v =>
    let rs1_value_signed_ext := sext 32 v
    let rs2_value := e.hart_state.read_register dec.rs2
    let rs2_32_extended := sext 32 rs2_value
    let r1_final := op rs1_value_signed_ext rs2_32_extended
    let st2 := e.hart_state.write_register dec.rd rs1_value_signed_ext
    let p := M.write_mem e.mem rs1_addr .Word r1_final
    .ok { hart_state := st2, mem := p.1 }

/-- Doubleword atomic read-modify-write (instruction_executor.rs
execute_amod): note the absence of any alignment check. -/
def execute_amod {σ : Type} (M : MemIface σ) (e : Exec σ) (dec : AType)
    (op : Nat → Nat → Nat) :
    Except InstructionException (Exec σ) :=
  let rs1_addr := e.hart_state.read_register dec.rs1
  match M.read_mem e.mem rs1_addr .DoubleWord with
  | none => .error (.LoadAccessFault rs1_addr)
  | some v =>
    let rs2_value := e.hart_state.read_register dec.rs2
    let rs1_final := op v rs2_value
    let st2 := e.hart_state.write_register dec.rd v
    let p := M.write_mem e.mem rs1_addr .DoubleWord rs1_final
    .ok { hart_state := st2, mem := p.1 }

/-- ALU register-register helper (instruction_executor.rs
execute_reg_reg_op). -/
def execute_reg_reg_op (st : HartState) (dec : RType) (op : Nat → Nat → Nat) :
    HartState :=
  st.write_register dec.rd
    (op (st.read_register dec.rs1) (st.read_register dec.rs2))

/-- Two-complement reading of a u64 bit pattern (the Rust cast as i64). -/
def toI64 (x : Nat) : Int :=
  if x % 2 ^ 64 < 2 ^ 63 then (x % 2 ^ 64 : Nat) else (x % 2 ^ 64 : Nat) - 2 ^ 64

/-- U64 bit pattern of an integer (the Rust cast as u64, two-complement
wrap). -/
def ofI64 (x : Int) : Nat := (x % 2 ^ 64).toNat

/-- DIV closure (instruction_executor.rs process_div): division by zero
yields the all-ones pattern, otherwise wrapping signed division. -/
def div_op (a b : Nat) : Nat :=
  if b = 0 then 2 ^ 64 - 1 else ofI64 ((toI64 a).tdiv (toI64 b))

/-- DIVU closure (instruction_executor.rs process_divu). -/
def divu_op (a b : Nat) : Nat :=
  if b = 0 then 2 ^ 64 - 1 else a / b

/-- REM closure (instruction_executor.rs process_rem). -/
def rem_op (a b : Nat) : Nat :=
  if b = 0 then a else ofI64 ((toI64 a).tmod (toI64 b))

/-- REMU closure (instruction_executor.rs process_remu). -/
def remu_op (a b : Nat) : Nat :=
  if b = 0 then a else a % b

/-- REMUW closure (instruction_executor.rs process_remuw); none embeds the
u32 remainder-by-zero panic reachable when the divisor is nonzero as a
u64 but zero in its low 32 bits. -/
def remuw_op (a b : Nat) : Option Nat :=
  if b = 0 then some (a % 2 ^ 32)
  else if b % 2 ^ 32 = 0 then none
  else some (sext 32 (a % 2 ^ 32 % (b % 2 ^ 32)))

/-- REMUW handler (instruction_executor.rs process_remuw through
execute_reg_reg_op). -/
def process_remuw (st : HartState) (dec : RType) : Option HartState :=
  (remuw_op (st.read_register dec.rs1) (st.read_register dec.rs2)).map
    (st.write_register dec.rd)

/-! ## Instruction decoder

Embedding of opcode.rs.  The Rust decode returns Result; unmatched low-7
opcodes bail with an illegal-opcode error, while covered opcodes whose
sub-fields match no row hit an unreachable panic.  The three outcomes are
kept apart in DecodeResult. -/

/-- MajorType from opcode.rs. -/
inductive MajorType
  | Compute0
  | Compute1
  | Compute2
  | MemIo
  | Multiply
  | Divide
  | VerifyAnd
  | VerifyDivide
  | ECall
  | ShaInit
  | ShaLoad
  | ShaMain
  | PageFault
  | MuxSize
deriving DecidableEq

/-- Conversion used by the FromPrimitive derive on MajorType. -/
def MajorType.fromNat : Nat → Option MajorType
  | 0 => some .Compute0
  | 1 => some .Compute1
  | 2 => some .Compute2
  | 3 => some .MemIo
  | 4 => some .Multiply
  | 5 => some .Divide
  | 6 => some .VerifyAnd
  | 7 => some .VerifyDivide
  | 8 => some .ECall
  | 9 => some .ShaInit
  | 10 => some .ShaLoad
  | 11 => some .ShaMain
  | 12 => some .PageFault
  | 13 => some .MuxSize
  | _ => none

/-- OpCode record from opcode.rs. -/
structure OpCode where
  insn : Nat
  insn_pc : Nat
  mnemonic : String
  major : MajorType
  minor : Nat
  cycles : Nat
deriving DecidableEq

/-- Outcome of decode: a decoded opcode, the illegal-opcode error carrying
the low seven bits, or a panic from an unreachable arm or a failed
FromPrimitive unwrap. -/
inductive DecodeResult
  | ok (op : OpCode)
  | illegal (opcode : Nat)
  | panics
deriving DecidableEq

/-- Constructor helper (opcode.rs OpCode::new): major and minor come from
the flat index; the FromPrimitive unwrap panic is kept. -/
def OpCode.new (insn insn_pc : Nat) (mnemonic : String) (idx cycles : Nat) :
    DecodeResult :=
  match MajorType.fromNat (idx / 8) with
  | some mj => .ok ⟨insn, insn_pc, mnemonic, mj, idx % 8, cycles⟩
  | none => .panics

/-- Constructor helper (opcode.rs OpCode::with_major_minor). -/
def OpCode.with_major_minor (insn insn_pc : Nat) (mnemonic : String)
    (major : MajorType) (minor cycles : Nat) : DecodeResult :=
  .ok ⟨insn, insn_pc, mnemonic, major, minor, cycles⟩

/-- Decoder (opcode.rs OpCode::decode), with the field extractions written
as division and remainder on the 32-bit instruction word. -/
def OpCode.decode (insn insn_pc : Nat) : DecodeResult :=
  let opcode := insn % 128
  let rs2 := insn / 2 ^ 20 % 32
  let funct3 := insn / 2 ^ 12 % 8
  let funct7 := insn / 2 ^ 25 % 128
  let funct7_rv64 := insn / 2 ^ 26 % 64
  let funct5 := insn / 2 ^ 27 % 32
  if opcode = 0b0000011 then
    if funct3 = 0x0 then OpCode.new insn insn_pc "LB" 24 1
    else if funct3 = 0x1 then OpCode.new insn insn_pc "LH" 25 1
    else if funct3 = 0x2 then OpCode.new insn insn_pc "LW" 26 1
    else if funct3 = 0x3 then OpCode.new insn insn_pc "LD" 27 1
    else if funct3 = 0x4 then OpCode.new insn insn_pc "LBU" 28 1
    else if funct3 = 0x5 then OpCode.new insn insn_pc "LHU" 29 1
    else if funct3 = 0x6 then OpCode.new insn insn_pc "LWU" 30 1
    else .panics
  else if opcode = 0b0010011 then
    if funct3 = 0x0 then OpCode.new insn insn_pc "ADDI" 7 1
    else if funct3 = 0x1 then OpCode.new insn insn_pc "SLLI" 37 1
    else if funct3 = 0x2 then OpCode.new insn insn_pc "SLTI" 11 1
    else if funct3 = 0x3 then OpCode.new insn insn_pc "SLTIU" 12 1
    else if funct3 = 0x4 then OpCode.new insn insn_pc "XORI" 8 2
    else if funct3 = 0x5 then
      if funct7_rv64 = 0b000000 then OpCode.new insn insn_pc "SRLI" 46 2
      else if funct7_rv64 = 0b010000 then OpCode.new insn insn_pc "SRAI" 47 2
      else .panics
    else if funct3 = 0x6 then OpCode.new insn insn_pc "ORI" 9 2
    else if funct3 = 0x7 then OpCode.new insn insn_pc "ANDI" 10 2
    else .panics
  else if opcode = 0b0010111 then OpCode.new insn insn_pc "AUIPC" 22 1
  else if opcode = 0b0100011 then
    if funct3 = 0x0 then OpCode.new insn insn_pc "SB" 29 1
    else if funct3 = 0x1 then OpCode.new insn insn_pc "SH" 30 1
    else if funct3 = 0x2 then OpCode.new insn insn_pc "SW" 31 1
    else if funct3 = 0x3 then OpCode.new insn insn_pc "SD" 31 1
    else .panics
  else if opcode = 0b0110011 then
    if funct3 = 0x0 ∧ funct7 = 0x00 then OpCode.new insn insn_pc "ADD" 0 1
    else if funct3 = 0x0 ∧ funct7 = 0x20 then OpCode.new insn insn_pc "SUB" 1 1
    else if funct3 = 0x1 ∧ funct7 = 0x00 then OpCode.new insn insn_pc "SLL" 36 1
    else if funct3 = 0x2 ∧ funct7 = 0x00 then OpCode.new insn insn_pc "SLT" 5 1
    else if funct3 = 0x3 ∧ funct7 = 0x00 then OpCode.new insn insn_pc "SLTU" 6 1
    else if funct3 = 0x4 ∧ funct7 = 0x00 then OpCode.new insn insn_pc "XOR" 2 2
    else if funct3 = 0x5 ∧ funct7 = 0x00 then OpCode.new insn insn_pc "SRL" 44 2
    else if funct3 = 0x5 ∧ funct7 = 0x20 then OpCode.new insn insn_pc "SRA" 45 2
    else if funct3 = 0x6 ∧ funct7 = 0x00 then OpCode.new insn insn_pc "OR" 3 2
    else if funct3 = 0x7 ∧ funct7 = 0x00 then OpCode.new insn insn_pc "AND" 4 2
    else if funct3 = 0x0 ∧ funct7 = 0x01 then OpCode.new insn insn_pc "MUL" 32 1
    else if funct3 = 0x1 ∧ funct7 = 0x01 then OpCode.new insn insn_pc "MULH" 33 1
    else if funct3 = 0x2 ∧ funct7 = 0x01 then OpCode.new insn insn_pc "MULSU" 34 1
    else if funct3 = 0x3 ∧ funct7 = 0x01 then OpCode.new insn insn_pc "MULU" 35 1
    else if funct3 = 0x4 ∧ funct7 = 0x01 then OpCode.new insn insn_pc "DIV" 40 2
    else if funct3 = 0x5 ∧ funct7 = 0x01 then OpCode.new insn insn_pc "DIVU" 41 2
    else if funct3 = 0x6 ∧ funct7 = 0x01 then OpCode.new insn insn_pc "REM" 42 2
    else if funct3 = 0x7 ∧ funct7 = 0x01 then OpCode.new insn insn_pc "REMU" 43 2
    else .panics
  else if opcode = 0b0101111 then
    if funct3 = 0b010 ∧ funct5 = 0b00001 then
      OpCode.new insn insn_pc "AMOSWAP.W" 0 1
    else if funct3 = 0b010 ∧ funct5 = 0b00010 then OpCode.new insn insn_pc "LR.W" 2 1
    else if funct3 = 0b010 ∧ funct5 = 0b00011 then OpCode.new insn insn_pc "SC.W" 3 1
    else if funct3 = 0b010 ∧ funct5 = 0b01000 then
      OpCode.new insn insn_pc "AMOOR.W" 0 1
    else if funct3 = 0b010 ∧ funct5 = 0b00000 then
      OpCode.new insn insn_pc "AMOADD.W" 1 1
    else if funct3 = 0b010 ∧ funct5 = 0b01100 then
      OpCode.new insn insn_pc "AMOAND.W" 0 1
    else if funct3 = 0b011 ∧ funct5 = 0b00000 then
      OpCode.new insn insn_pc "AMOADD.D" 1 1
    else if funct3 = 0b011 ∧ funct5 = 0b00001 then
      OpCode.new insn insn_pc "AMOSWAP.D" 2 1
    else if funct3 = 0b011 ∧ funct5 = 0b00010 then OpCode.new insn insn_pc "LR.D" 3 1
    else if funct3 = 0b011 ∧ funct5 = 0b00011 then OpCode.new insn insn_pc "SC.D" 4 1
    else .panics
  else if opcode = 0b0110111 then OpCode.new insn insn_pc "LUI" 21 1
  else if opcode = 0b1100011 then
    if funct3 = 0x0 then OpCode.new insn insn_pc "BEQ" 13 1
    else if funct3 = 0x1 then OpCode.new insn insn_pc "BNE" 14 1
    else if funct3 = 0x4 then OpCode.new insn insn_pc "BLT" 15 1
    else if funct3 = 0x5 then OpCode.new insn insn_pc "BGE" 16 1
    else if funct3 = 0x6 then OpCode.new insn insn_pc "BLTU" 17 1
    else if funct3 = 0x7 then OpCode.new insn insn_pc "BGEU" 18 1
    else .panics
  else if opcode = 0b1100111 then
    if funct3 = 0x0 then OpCode.new insn insn_pc "JALR" 20 1
    else .panics
  else if opcode = 0b0011011 then
    if funct3 = 0b000 then OpCode.new insn insn_pc "ADDIW" 0 1
    else .panics
  else if opcode = 0b0111011 then
    if funct3 = 0b000 ∧ funct7 = 0b0000001 then OpCode.new insn insn_pc "MULW" 0 1
    else if funct3 = 0b111 ∧ funct7 = 0b0000001 then
      OpCode.new insn insn_pc "REMUW" 1 1
    else .panics
  else if opcode = 0b1101111 then OpCode.new insn insn_pc "JAL" 19 1
  else if opcode = 0b1110011 then
    if funct3 = 0x0 then
      if rs2 = 0x0 ∧ funct7 = 0x0 then
        OpCode.with_major_minor insn insn_pc "ECALL" .ECall 0 1
      else if rs2 = 0x1 ∧ funct7 = 0x0 then
        OpCode.with_major_minor insn insn_pc "EBREAK" .ECall 1 1
      else .panics
    else if funct3 = 0b010 then OpCode.new insn insn_pc "RDTIME" 0 1
    else .panics
  else if opcode = 0b0001111 then OpCode.new insn insn_pc "FENCE" 0 1
  else .illegal opcode

/-- Low-7-bit opcodes covered by a decode arm. -/
def coveredOpcodes : List Nat :=
  [0b0000011, 0b0010011, 0b0010111, 0b0100011, 0b0110011, 0b0101111,
   0b0110111, 0b1100011, 0b1100111, 0b0011011, 0b0111011, 0b1101111,
   0b1110011, 0b0001111]

/-- Whether a decode outcome is the illegal-opcode error. -/
def isIllegal : DecodeResult → Bool
  | .illegal _ => true
  | _ => false

/-! ## ELF symbol patch pass

Embedding of the symbol-patching loop of load_elf (elf.rs): the program
image is an ordered map from address to 32-bit word, embedded as an
association list with unique keys. -/

/-- BTreeMap get on the association-list embedding of the image. -/
def image_get : List (Nat × Nat) → Nat → Option Nat
  | [], _ => none
  | (k, v) :: rest, key => if k = key then some v else image_get rest key

/-- BTreeMap insert on the association-list embedding of the image. -/
def image_insert : List (Nat × Nat) → Nat → Nat → List (Nat × Nat)
  | [], k, v => [(k, v)]
  | (k2, v2) :: rest, k, v =>
    if k2 = k then (k, v) :: rest else (k2, v2) :: image_insert rest k v

/-- Patch set of load_elf (elf.rs match arms). -/
def patch_symbol_names : List String :=
  ["runtime.gcenable",
   "runtime.init.5",
   "runtime.main.func1",
   "runtime.deductSweepCredit",
   "runtime.(*gcControllerState).commit",
   "github.com/prometheus/client_golang/prometheus.init",
   "github.com/prometheus/client_golang/prometheus.init.0",
   "github.com/prometheus/procfs.init",
   "github.com/prometheus/common/model.init",
   "github.com/prometheus/client_model/go.init",
   "github.com/prometheus/client_model/go.init.0",
   "github.com/prometheus/client_model/go.init.1",
   "flag.init",
   "runtime.fastexprand",
   "runtime.getRandomData",
   "runtime.initsig",
   "runtime.check",
   "runtime.doInit"]

/-- Outcome of the loader patch pass: the patched image, a returned error,
or a panic.  The err constructor records the shape a diagnostic Result
error would take; the pass itself never produces it. -/
inductive LoaderOutcome
  | ok (image : List (Nat × Nat))
  | err (msg : String)
  | panics
deriving DecidableEq

/-- Symbol patch pass of load_elf (elf.rs, symtab for_each loop): for each
symbol whose name is in the patch set, the debug print unwraps the image
entry at st_value, panicking when it is absent, and then the entry is
overwritten with the return-instruction word 0x00008067. -/
def patch_symbols_apply :
    List (Nat × Nat) → List (String × Nat) → LoaderOutcome
  | image, [] => .ok image
  | image, (name, st_value) :: rest =>
    if name ∈ patch_symbol_names then
      match image_get image st_value with
      | none => .panics
      | some _ =>
        patch_symbols_apply (image_insert image st_value 0x00008067) rest
    else patch_symbols_apply image rest

/-! ## Derived helpers and concrete instances used by the theorems -/

/-- Pending-write records produced by a byte-slice store at consecutive
addresses. -/
def storeEntries : Nat → List Nat → List MemStore
  | _, [] => []
  | a, b :: bs => ⟨a, b⟩ :: storeEntries (a + 1) bs

/-- Whether a loader outcome is a returned error. -/
def LoaderOutcome.isErr : LoaderOutcome → Bool
  | .err _ => true
  | _ => false

/-- Concrete region: sixteen zero bytes at base 0. -/
def regA : MemoryRegion := ⟨0, 16, [0, 0]⟩

/-- Concrete monitor over regA with a saved op result and empty pending
buffer. -/
def monA : MemoryMonitor := ⟨⟨[regA]⟩, [], some ⟨none, false⟩, [], false⟩

/-- Concrete platform constants: stack address 1024, register file at 0. -/
def P0 : Platform := ⟨1024, 0⟩

/-- Concrete region backing the register file: 256 bytes at base 0 with
the doubleword slot of register 2 holding 5. -/
def regB : MemoryRegion := ⟨0, 256, (List.replicate 32 0).set 2 5⟩

/-- Concrete monitor over regB before the first read of register 2. -/
def monB : MemoryMonitor := ⟨⟨[regB]⟩, [], some ⟨none, false⟩, [], false⟩

/-- Concrete monitor with no regions at all and one pending byte write. -/
def monC : MemoryMonitor := ⟨⟨[]⟩, [⟨0, 5⟩], some ⟨none, false⟩, [], false⟩

/-- Concrete monitor over a zeroed register-file region, past the
first-read bootstrap of register 2. -/
def monE : MemoryMonitor := ⟨⟨[⟨0, 256, List.replicate 32 0⟩]⟩, [], some ⟨none, false⟩, [], true⟩

/-- Concrete memory interface that records every write and answers every
read with zero. -/
def recMem : MemIface (List (Nat × MemAccessSize × Nat)) :=
  { read_mem := fun _ _ _ => some 0
    write_mem := fun l a s d => (l ++ [(a, s, d)], true) }

/-- Concrete hart whose register x1 holds 1 (a misaligned address). -/
def hart1 : HartState := ⟨(List.replicate 32 0).set 1 1, 0, none⟩

/-- Concrete executor state over the recording memory. -/
def exec1 : Exec (List (Nat × MemAccessSize × Nat)) := ⟨hart1, []⟩

instance storesSortedDecidable (l : List MemStore) :
    Decidable (StoresSorted l) :=
  decidable_of_iff
    (List.Pairwise (fun x y => MemStore.sltB x y = true) l) Iff.rfl

instance memorySpaceWFDecidable (sp : MemorySpace) : Decidable sp.WF :=
  decidable_of_iff (∀ r ∈ sp.regions, 8 * r.cells.length = r.size) Iff.rfl

/-! ## Theorems -/

theorem getByte_setByte_self (cell off b : Nat) :
    getByte (setByte cell off b) off = b % 256 := by
  unfold getByte setByte
  have hE : (0:Nat) < 2 ^ (8 * off) := Nat.pos_pow_of_pos _ (by norm_num)
  have hpow : 2 ^ (8 * (off + 1)) = 2 ^ (8 * off) * 256 := by
    rw [Nat.mul_add, Nat.pow_add]
  set E := 2 ^ (8 * off) with hEdef
  rw [hpow]
  have h1 : cell / (E * 256) * (E * 256) + b % 256 * E + cell % E
      = E * (cell / (E * 256) * 256 + b % 256) + cell % E := by ring
  rw [h1, Nat.mul_add_div hE, Nat.div_eq_of_lt (Nat.mod_lt _ hE), Nat.add_zero,
    Nat.add_comm, Nat.mul_comm, Nat.add_mul_mod_self_left]
  omega

theorem getByte_setByte_ne (cell : Nat) {off off' : Nat} (b : Nat)
    (h : off' ≠ off) : getByte (setByte cell off b) off' = getByte cell off' := by
  have hE : (0:Nat) < 2 ^ (8 * off) := Nat.pos_pow_of_pos _ (by norm_num)
  have hE' : (0:Nat) < 2 ^ (8 * off') := Nat.pos_pow_of_pos _ (by norm_num)
  have hpow : 2 ^ (8 * (off + 1)) = 2 ^ (8 * off) * 256 := by
    rw [Nat.mul_add, Nat.pow_add]
  rcases Nat.lt_or_ge off' off with hlt | hge
  · -- off' strictly below off: the low bytes of the cell are untouched
    unfold getByte setByte
    rw [hpow]
    set E := 2 ^ (8 * off) with hEdef
    set E' := 2 ^ (8 * off') with hE2def
    have hD : E = E' * 256 * 2 ^ (8 * off - 8 * off' - 8) := by
      rw [hE2def, hEdef]
      have h256 : (256:Nat) = 2 ^ 8 := by norm_num
      rw [h256, ← Nat.pow_add, ← Nat.pow_add]
      congr 1
      omega
    set D := 2 ^ (8 * off - 8 * off' - 8) with hDdef
    set C := cell % E with hCdef
    have key : ∀ q, (E' * (256 * q) + C) / E' % 256 = C / E' % 256 := by
      intro q
      rw [Nat.mul_add_div hE', Nat.mul_add_mod]
    have hx : cell / (E * 256) * (E * 256) + b % 256 * E + C
        = E' * (256 * (cell / (E * 256) * (D * 256) + b % 256 * D)) + C := by
      rw [hD]; ring
    have hc : cell = E' * (256 * (cell / E * D)) + C := by
      conv_lhs => rw [← Nat.div_add_mod cell E]
      rw [← hCdef, hD]; ring
    rw [hx, key]
    conv_rhs => rw [hc, key]
  · -- off' strictly above off: the high bytes of the cell are untouched
    have hgt : off < off' := by omega
    unfold getByte setByte
    rw [hpow]
    set E := 2 ^ (8 * off) with hEdef
    set E' := 2 ^ (8 * off') with hE2def
    have hD : E' = E * 256 * 2 ^ (8 * off' - 8 * off - 8) := by
      rw [hE2def, hEdef]
      have h256 : (256:Nat) = 2 ^ 8 := by norm_num
      rw [h256, ← Nat.pow_add, ← Nat.pow_add]
      congr 1
      omega
    set D := 2 ^ (8 * off' - 8 * off - 8) with hDdef
    have hEpos : (0:Nat) < E * 256 := by positivity
    have hrem : b % 256 * E + cell % E < E * 256 := by
      have h1 : b % 256 < 256 := Nat.mod_lt _ (by norm_num)
      have h2 : cell % E < E := Nat.mod_lt _ hE
      calc b % 256 * E + cell % E < b % 256 * E + E := by omega
        _ = (b % 256 + 1) * E := by ring
        _ ≤ 256 * E := Nat.mul_le_mul_right E (by omega)
        _ = E * 256 := by ring
    have hdivq : (cell / (E * 256) * (E * 256) + b % 256 * E + cell % E) / (E * 256)
        = cell / (E * 256) := by
      have : cell / (E * 256) * (E * 256) + b % 256 * E + cell % E
          = E * 256 * (cell / (E * 256)) + (b % 256 * E + cell % E) := by ring
      rw [this, Nat.mul_add_div hEpos, Nat.div_eq_of_lt hrem, Nat.add_zero]
    rw [hD, ← Nat.div_div_eq_div_mul, hdivq, Nat.div_div_eq_div_mul]

theorem assembleLE_leBytes (n v : Nat) :
    assembleLE (leBytes n v) = v % 256 ^ n := by
  induction n generalizing v with
  | zero => simp [leBytes, assembleLE, Nat.mod_one]
  | succ n ih =>
    rw [leBytes, assembleLE, ih]
    have h1 : (256:Nat) ^ (n + 1) = 256 * 256 ^ n := by ring
    rw [h1, Nat.mod_mul]

theorem leBytes_length (n v : Nat) : (leBytes n v).length = n := by
  induction n generalizing v with
  | zero => rfl
  | succ n ih => simp [leBytes, ih]

theorem containsB_writeByteIn (r : MemoryRegion) (a' b a : Nat) :
    (r.writeByteIn a' b).containsB a = r.containsB a := rfl

theorem WF_writeByteIn (r : MemoryRegion) (a b : Nat) (h : r.WF) :
    (r.writeByteIn a b).WF := by
  unfold MemoryRegion.WF MemoryRegion.writeByteIn at *
  simpa using h

theorem readByteIn_writeByteIn_self {r : MemoryRegion} {a : Nat} (b : Nat)
    (hwf : r.WF) (hc : r.containsB a = true) :
    (r.writeByteIn a b).readByteIn a = b % 256 := by
  unfold MemoryRegion.containsB at hc
  simp only [Bool.and_eq_true, decide_eq_true_eq] at hc
  have hidx : (a - r.base) / 8 < r.cells.length := by
    have h1 : a - r.base < 8 * r.cells.length := by
      unfold MemoryRegion.WF at hwf; omega
    omega
  unfold MemoryRegion.readByteIn MemoryRegion.writeByteIn
  simp only [List.getD_eq_getElem?_getD, List.getElem?_set_self hidx, Option.getD_some]
  exact getByte_setByte_self _ _ _

theorem readByteIn_writeByteIn_ne {r : MemoryRegion} {a a' : Nat} (b : Nat)
    (hca : r.containsB a = true) (hca' : r.containsB a' = true) (hne : a ≠ a') :
    (r.writeByteIn a' b).readByteIn a = r.readByteIn a := by
  unfold MemoryRegion.containsB at hca hca'
  simp only [Bool.and_eq_true, decide_eq_true_eq] at hca hca'
  have hoff : a - r.base ≠ a' - r.base := by omega
  unfold MemoryRegion.readByteIn MemoryRegion.writeByteIn
  rcases Nat.decEq ((a - r.base) / 8) ((a' - r.base) / 8) with hci | hci
  · -- distinct cells
    have hci' : (a' - r.base) / 8 ≠ (a - r.base) / 8 := fun hh => hci hh.symm
    simp only [List.getD_eq_getElem?_getD, List.getElem?_set_ne hci']
  · -- same cell, distinct byte offsets
    have hoffne : (a - r.base) % 8 ≠ (a' - r.base) % 8 := by omega
    simp only [List.getD_eq_getElem?_getD, hci]
    rcases Nat.lt_or_ge ((a' - r.base) / 8) r.cells.length with hlen | hlen
    · rw [List.getElem?_set_self hlen]
      simp only [Option.getD_some]
      exact getByte_setByte_ne _ _ hoffne
    · rw [List.set_eq_of_length_le (by omega)]

theorem writeByteList_not_inRange {l : List MemoryRegion} {a : Nat} (b : Nat)
    (h : l.any (fun r => r.containsB a) = false) :
    writeByteList l a b = (l, false) := by
  induction l with
  | nil => rfl
  | cons r rs ih =>
    simp only [List.any_cons, Bool.or_eq_false_iff] at h
    rw [writeByteList, h.1]
    simp [ih h.2]

theorem readByteList_writeByteList_ne {l : List MemoryRegion} {a a' : Nat}
    (b : Nat) (hne : a ≠ a') :
    readByteList (writeByteList l a' b).1 a = readByteList l a := by
  induction l with
  | nil => rfl
  | cons r rs ih =>
    rw [writeByteList]
    by_cases hc' : r.containsB a' = true
    · rw [if_pos hc']
      rw [readByteList, readByteList, containsB_writeByteIn]
      by_cases hc : r.containsB a = true
      · rw [if_pos hc, if_pos hc, readByteIn_writeByteIn_ne b hc hc' hne]
      · rw [if_neg hc, if_neg hc]
    · rw [if_neg hc']
      rw [readByteList, readByteList]
      by_cases hc : r.containsB a = true
      · rw [if_pos hc, if_pos hc]
      · rw [if_neg hc, if_neg hc]
        exact ih

theorem readByteList_writeByteList_self {l : List MemoryRegion} {a : Nat}
    (b : Nat) (hwf : ∀ r ∈ l, r.WF) (hin : l.any (fun r => r.containsB a) = true) :
    readByteList (writeByteList l a b).1 a = some (b % 256) := by
  induction l with
  | nil => simp at hin
  | cons r rs ih =>
    rw [writeByteList]
    by_cases hc : r.containsB a = true
    · rw [if_pos hc, readByteList, containsB_writeByteIn, if_pos hc,
        readByteIn_writeByteIn_self b (hwf r (by simp)) hc]
    · rw [if_neg hc, readByteList, if_neg hc]
      simp only [List.any_cons, Bool.or_eq_true] at hin
      rcases hin with hin | hin
      · exact absurd hin hc
      · exact ih (fun r hr => hwf r (by simp [hr])) hin

theorem writeByteList_bases {l : List MemoryRegion} (a b : Nat) :
    (writeByteList l a b).1.map (fun r => (r.base, r.size))
      = l.map (fun r => (r.base, r.size)) := by
  induction l with
  | nil => rfl
  | cons r rs ih =>
    rw [writeByteList]
    by_cases hc : r.containsB a = true
    · rw [if_pos hc]; simp [MemoryRegion.writeByteIn]
    · rw [if_neg hc]; simpa using ih

theorem containsB_eq_of_base_size {r r' : MemoryRegion} (a : Nat)
    (h : (r.base, r.size) = (r'.base, r'.size)) : r.containsB a = r'.containsB a := by
  unfold MemoryRegion.containsB
  simp only [Prod.mk.injEq] at h
  rw [h.1, h.2]

theorem any_containsB_writeByteList {l : List MemoryRegion} (a b a' : Nat) :
    (writeByteList l a b).1.any (fun r => r.containsB a')
      = l.any (fun r => r.containsB a') := by
  induction l with
  | nil => rfl
  | cons r rs ih =>
    rw [writeByteList]
    by_cases hc : r.containsB a = true
    · rw [if_pos hc]
      simp only [List.any_cons, containsB_writeByteIn]
    · rw [if_neg hc]
      simp only [List.any_cons, ih]

theorem WF_writeByteList {l : List MemoryRegion} (a b : Nat)
    (hwf : ∀ r ∈ l, r.WF) : ∀ r ∈ (writeByteList l a b).1, r.WF := by
  induction l with
  | nil => intro r hr; simp [writeByteList] at hr
  | cons r rs ih =>
    rw [writeByteList]
    by_cases hc : r.containsB a = true
    · rw [if_pos hc]
      intro r' hr'
      rcases List.mem_cons.mp hr' with h | h
      · subst h; exact WF_writeByteIn _ _ _ (hwf r (by simp))
      · exact hwf r' (by simp [h])
    · rw [if_neg hc]
      intro r' hr'
      rcases List.mem_cons.mp hr' with h | h
      · subst h; exact hwf r' (by simp)
      · exact ih (fun q hq => hwf q (by simp [hq])) r' h

theorem sltB_trans {x y z : MemStore} (h1 : MemStore.sltB x y = true)
    (h2 : MemStore.sltB y z = true) : MemStore.sltB x z = true := by
  unfold MemStore.sltB at *
  simp only [Bool.or_eq_true, Bool.and_eq_true, decide_eq_true_eq] at *
  omega

theorem sltB_total {x s : MemStore} (h1 : MemStore.sltB s x = false) (h2 : s ≠ x) :
    MemStore.sltB x s = true := by
  rcases s with ⟨sa, sd⟩
  rcases x with ⟨xa, xd⟩
  unfold MemStore.sltB at *
  simp only [Bool.or_eq_false_iff, Bool.and_eq_false_iff, Bool.or_eq_true,
    Bool.and_eq_true, decide_eq_true_eq, decide_eq_false_iff_not] at h1 ⊢
  simp only [ne_eq, MemStore.mk.injEq, not_and] at h2
  omega

theorem mem_insertStore {l : List MemStore} {s y : MemStore}
    (h : y ∈ insertStore l s) : y ∈ l ∨ y = s := by
  induction l with
  | nil =>
    rw [show insertStore [] s = [s] from rfl] at h
    right; exact List.mem_singleton.mp h
  | cons x xs ih =>
    rw [insertStore] at h
    by_cases h1 : MemStore.sltB s x = true
    · rw [if_pos h1] at h
      rcases List.mem_cons.mp h with h | h
      · right; exact h
      · left; exact h
    · rw [if_neg h1] at h
      by_cases h2 : s = x
      · rw [if_pos h2] at h
        left; exact h
      · rw [if_neg h2] at h
        rcases List.mem_cons.mp h with h | h
        · left; simp [h]
        · rcases ih h with h | h
          · left; simp [h]
          · right; exact h

theorem insertStore_sorted {l : List MemStore} (s : MemStore)
    (h : StoresSorted l) : StoresSorted (insertStore l s) := by
  induction l with
  | nil => simp [insertStore, StoresSorted]
  | cons x xs ih =>
    rw [StoresSorted, List.pairwise_cons] at h
    rw [insertStore]
    by_cases h1 : MemStore.sltB s x = true
    · rw [if_pos h1]
      rw [StoresSorted, List.pairwise_cons]
      constructor
      · intro y hy
        rcases List.mem_cons.mp hy with hy | hy
        · subst hy; exact h1
        · exact sltB_trans h1 (h.1 y hy)
      · rw [StoresSorted] at *
        rw [List.pairwise_cons]
        exact h
    · rw [if_neg h1]
      by_cases h2 : s = x
      · rw [if_pos h2]
        rw [StoresSorted, List.pairwise_cons]
        exact h
      · rw [if_neg h2]
        rw [StoresSorted, List.pairwise_cons]
        constructor
        · intro y hy
          rcases mem_insertStore hy with hy | hy
          · exact h.1 y hy
          · subst hy
            exact sltB_total (by simpa using h1) h2
        · exact ih h.2

theorem lastDataAt_mem {l : List MemStore} {a d : Nat}
    (h : lastDataAt l a = some d) : ∃ e ∈ l, e.addr = a ∧ e.data = d := by
  induction l with
  | nil => simp [lastDataAt] at h
  | cons e rest ih =>
    rw [lastDataAt] at h
    rcases hrest : lastDataAt rest a with _ | d2
    · rw [hrest] at h
      simp only at h
      by_cases he : e.addr = a
      · rw [if_pos he] at h
        exact ⟨e, by simp, he, by simpa using h⟩
      · rw [if_neg he] at h
        simp at h
    · rw [hrest] at h
      simp only [Option.some.injEq] at h
      subst h
      obtain ⟨e2, he2, hae, hde⟩ := ih hrest
      exact ⟨e2, by simp [he2], hae, hde⟩

theorem insertStore_append {l : List MemStore} {s : MemStore}
    (h : ∀ e ∈ l, e.addr < s.addr) : insertStore l s = l ++ [s] := by
  induction l with
  | nil => rfl
  | cons x xs ih =>
    have hx : x.addr < s.addr := h x (by simp)
    have h1 : MemStore.sltB s x = false := by
      unfold MemStore.sltB
      simp only [Bool.or_eq_false_iff, Bool.and_eq_false_iff,
        decide_eq_false_iff_not]
      omega
    have h2 : s ≠ x := by
      intro hh; subst hh; omega
    rw [insertStore, h1, if_neg h2]
    simp only [Bool.false_eq_true, if_false, List.cons_append, List.cons.injEq,
      true_and]
    exact ih (fun e he => h e (by simp [he]))

theorem lastDataAt_append_single (l : List MemStore) (e : MemStore) (a : Nat) :
    lastDataAt (l ++ [e]) a
      = if e.addr = a then some e.data else lastDataAt l a := by
  induction l with
  | nil => simp [lastDataAt]
  | cons x xs ih =>
    rw [List.cons_append, lastDataAt, ih, lastDataAt]
    by_cases he : e.addr = a
    · simp only [if_pos he]
    · simp only [if_neg he]

theorem commitWrites_read {l : List MemStore} {sp : MemorySpace} {a : Nat}
    (hwf : sp.WF) (hin : sp.inRange a = true) :
    (commitWrites sp l).1.read_mem_byte a
      = match lastDataAt l a with
        | some d => some (d % 256)
        | none => sp.read_mem_byte a := by
  induction l generalizing sp with
  | nil => rfl
  | cons e rest ih =>
    rw [commitWrites, lastDataAt]
    have hwf2 : (sp.write_mem_byte e.addr e.data).1.WF :=
      WF_writeByteList _ _ hwf
    have hin2 : (sp.write_mem_byte e.addr e.data).1.inRange a = true := by
      unfold MemorySpace.inRange MemorySpace.write_mem_byte at *
      rw [any_containsB_writeByteList]
      exact hin
    have := ih hwf2 hin2
    simp only at this ⊢
    rw [this]
    rcases hrest : lastDataAt rest a with _ | d
    · simp only
      by_cases he : e.addr = a
      · rw [if_pos he]
        subst he
        exact readByteList_writeByteList_self _ hwf hin
      · rw [if_neg he]
        exact readByteList_writeByteList_ne _ (fun hh => he hh.symm)
    · simp only

theorem commitWrites_skip {sp : MemorySpace} {e : MemStore}
    (h : sp.inRange e.addr = false) :
    commitWrites sp [e] = (sp, [e.addr]) := by
  rw [commitWrites]
  unfold MemorySpace.write_mem_byte
  rw [writeByteList_not_inRange _ h]
  rfl

theorem lastDataAt_sorted_max {l : List MemStore} {a : Nat} {e : MemStore}
    (hs : StoresSorted l) (hmem : e ∈ l) (ha : e.addr = a)
    (hmax : ∀ e2 ∈ l, e2.addr = a → e2.data ≤ e.data) :
    lastDataAt l a = some e.data := by
  induction l with
  | nil => simp at hmem
  | cons x xs ih =>
    rw [StoresSorted, List.pairwise_cons] at hs
    rw [lastDataAt]
    rcases List.mem_cons.mp hmem with he | he
    · subst he
      rcases hrest : lastDataAt xs a with _ | d
    
      · simp [ha]
      · exfalso
        obtain ⟨e2, he2, hae2, hde2⟩ := lastDataAt_mem hrest
        have hlt : MemStore.sltB e e2 = true := hs.1 e2 he2
        have hle := hmax e2 (by simp [he2]) hae2
        unfold MemStore.sltB at hlt
        simp only [Bool.or_eq_true, Bool.and_eq_true, decide_eq_true_eq] at hlt
        omega
    · have hres := ih hs.2 he (fun e2 h2 ha2 => hmax e2 (by simp [h2]) ha2)
      rw [hres]

theorem getD_set_self {l : List Nat} {i : Nat} (x : Nat) (h : i < l.length) :
    (l.set i x).getD i 0 = x := by
  rw [List.getD_eq_getElem?_getD, List.getElem?_set_self h, Option.getD_some]

theorem read_register_write_register_self {st : HartState} {rd : Nat} (v : Nat)
    (h0 : rd ≠ 0) (hlen : rd < st.registers.length) :
    (st.write_register rd v).read_register rd = v := by
  unfold HartState.write_register HartState.read_register
  rw [if_neg h0, if_neg h0]
  exact getD_set_self v hlen

theorem isIllegal_new (insn insn_pc : Nat) (mn : String) (idx cycles : Nat) :
    isIllegal (OpCode.new insn insn_pc mn idx cycles) = false := by
  unfold OpCode.new
  cases MajorType.fromNat (idx / 8) <;> rfl

theorem isIllegal_with_major_minor (insn insn_pc : Nat) (mn : String)
    (mj : MajorType) (minor cycles : Nat) :
    isIllegal (OpCode.with_major_minor insn insn_pc mn mj minor cycles) = false :=
  rfl

theorem isIllegal_panics : isIllegal .panics = false := rfl

theorem image_get_insert_self (image : List (Nat × Nat)) (k v : Nat) :
    image_get (image_insert image k v) k = some v := by
  induction image with
  | nil => simp [image_insert, image_get]
  | cons p rest ih =>
    rw [image_insert]
    by_cases hk : p.1 = k
    · rw [if_pos hk, image_get, if_pos rfl]
    · rw [if_neg hk, image_get, if_neg hk]
      exact ih

theorem readByteList_none {l : List MemoryRegion} {a : Nat}
    (h : l.any (fun r => r.containsB a) = false) : readByteList l a = none := by
  induction l with
  | nil => rfl
  | cons r rs ih =>
    simp only [List.any_cons, Bool.or_eq_false_iff] at h
    rw [readByteList, h.1]
    simp only [Bool.false_eq_true, if_false]
    exact ih h.2

theorem store_u8_fields (m : MemoryMonitor) (addr data : Nat) :
    (m.store_u8 addr data).space = m.space
    ∧ (m.store_u8 addr data).op_result = m.op_result
    ∧ (m.store_u8 addr data).syscalls = m.syscalls
    ∧ (m.store_u8 addr data).initial = m.initial := by
  unfold MemoryMonitor.store_u8
  exact ⟨rfl, rfl, rfl, rfl⟩

theorem store_region_fields (bytes : List Nat) :
    ∀ (m : MemoryMonitor) (addr : Nat),
    (m.store_region addr bytes).space = m.space
    ∧ (m.store_region addr bytes).op_result = m.op_result
    ∧ (m.store_region addr bytes).syscalls = m.syscalls
    ∧ (m.store_region addr bytes).initial = m.initial := by
  induction bytes with
  | nil => intro m addr; exact ⟨rfl, rfl, rfl, rfl⟩
  | cons b bs ih =>
    intro m addr
    have hsr : m.store_region addr (b :: bs)
        = (m.store_u8 addr b).store_region (addr + 1) bs := rfl
    obtain ⟨h1, h2, h3, h4⟩ := ih (m.store_u8 addr b) (addr + 1)
    rw [hsr, h1, h2, h3, h4]
    exact store_u8_fields m addr b

theorem store_region_pending (bytes : List Nat) :
    ∀ (m : MemoryMonitor) (addr : Nat),
    (∀ e ∈ m.pending_writes, e.addr < addr) →
    (m.store_region addr bytes).pending_writes
      = m.pending_writes ++ storeEntries addr bytes := by
  induction bytes with
  | nil => intro m addr _; simp [MemoryMonitor.store_region, storeEntries]
  | cons b bs ih =>
    intro m addr hlt
    show ((m.store_u8 addr b).store_region (addr + 1) bs).pending_writes = _
    have hstep : (m.store_u8 addr b).pending_writes
        = m.pending_writes ++ [⟨addr, b⟩] := by
      unfold MemoryMonitor.store_u8
      exact insertStore_append hlt
    have hlt2 : ∀ e ∈ (m.store_u8 addr b).pending_writes, e.addr < addr + 1 := by
      rw [hstep]
      intro e he
      rcases List.mem_append.mp he with he | he
      · exact Nat.lt_succ_of_lt (hlt e he)
      · simp only [List.mem_singleton] at he
        subst he
        exact Nat.lt_succ_self addr
    rw [ih (m.store_u8 addr b) (addr + 1) hlt2, hstep, storeEntries]
    simp

theorem storeEntries_addr_range (bytes : List Nat) :
    ∀ (a : Nat), ∀ e ∈ storeEntries a bytes,
      a ≤ e.addr ∧ e.addr < a + bytes.length := by
  induction bytes with
  | nil => intro a e he; simp [storeEntries] at he
  | cons b bs ih =>
    intro a e he
    rw [storeEntries] at he
    rcases List.mem_cons.mp he with he | he
    · subst he
      simp
    · obtain ⟨h1, h2⟩ := ih (a + 1) e he
      constructor
      · omega
      · simp only [List.length_cons]
        omega

theorem lastDataAt_no_entry {l : List MemStore} {x : Nat}
    (h : ∀ e ∈ l, e.addr ≠ x) : lastDataAt l x = none := by
  induction l with
  | nil => rfl
  | cons e rest ih =>
    rw [lastDataAt, ih (fun e2 he2 => h e2 (by simp [he2]))]
    simp only
    rw [if_neg (h e (by simp))]

theorem lastDataAt_storeEntries (bytes : List Nat) :
    ∀ (a i : Nat), i < bytes.length →
    lastDataAt (storeEntries a bytes) (a + i) = some (bytes.getD i 0) := by
  induction bytes with
  | nil => intro a i hi; simp at hi
  | cons b bs ih =>
    intro a i hi
    rw [storeEntries, lastDataAt]
    rcases i with _ | j
    · have hnone : lastDataAt (storeEntries (a + 1) bs) (a + 0) = none := by
        apply lastDataAt_no_entry
        intro e he
        have := (storeEntries_addr_range bs (a + 1) e he).1
        omega
      rw [hnone]
      simp [lastDataAt]
    · have heq : a + (j + 1) = (a + 1) + j := by omega
      have hres := ih (a + 1) j (by simpa using hi)
      rw [heq, hres]
      simp [List.getD_cons_succ]

theorem leBytes_lt (n : Nat) : ∀ (v : Nat), ∀ b ∈ leBytes n v, b < 256 := by
  induction n with
  | zero => intro v b hb; simp [leBytes] at hb
  | succ n ih =>
    intro v b hb
    rw [leBytes] at hb
    rcases List.mem_cons.mp hb with hb | hb
    · subst hb
      exact Nat.mod_lt _ (by norm_num)
    · exact ih (v / 256) b hb

theorem load_bytes_eq {m : MemoryMonitor} (n : Nat) :
    ∀ (a : Nat) (bs : List Nat), bs.length = n →
    (∀ i, i < n → m.load_u8 (a + i) = some (bs.getD i 0)) →
    m.load_bytes n a = some bs := by
  induction n with
  | zero =>
    intro a bs hlen _
    rw [List.length_eq_zero] at hlen
    subst hlen
    rfl
  | succ n ih =>
    intro a bs hlen h
    rcases bs with _ | ⟨b, bs2⟩
    · simp at hlen
    · have h0 : m.load_u8 (a + 0) = some b := h 0 (Nat.succ_pos n)
      have hrest : m.load_bytes n (a + 1) = some bs2 := by
        apply ih (a + 1) bs2 (by simpa using hlen)
        intro i hi
        have := h (i + 1) (by omega)
        rw [show a + (i + 1) = a + 1 + i by omega] at this
        simpa [List.getD_cons_succ] using this
      rw [MemoryMonitor.load_bytes]
      rw [show a + 0 = a by omega] at h0
      rw [h0, hrest]
      rfl

/-- C3 counterexample: the instruction word 0x00007003 has the covered
load opcode 0b0000011 but funct3 7, which matches no row; decode panics
through the unreachable arm instead of returning the illegal-opcode
error the claim promises for every unmatched word. -/
theorem C3_counterexample :
    OpCode.decode 0x00007003 0 = DecodeResult.panics
    ∧ isIllegal (OpCode.decode 0x00007003 0) = false := by
  constructor
  · rfl
  · rfl

/-- C3 amended: decode returns the illegal-opcode error exactly for words
whose low seven bits match no covered opcode; for a covered opcode it
never returns that error (each sub-field row yields an opcode and
unmatched sub-fields panic through an unreachable arm). -/
theorem C3_decode_amended (insn insn_pc : Nat) :
    (insn % 128 ∉ coveredOpcodes →
      OpCode.decode insn insn_pc = DecodeResult.illegal (insn % 128))
    ∧ (insn % 128 ∈ coveredOpcodes →
      isIllegal (OpCode.decode insn insn_pc) = false) := by
  constructor
  · intro h
    simp only [coveredOpcodes, List.mem_cons, List.not_mem_nil, or_false,
      not_or] at h
    obtain ⟨h1, h2, h3, h4, h5, h6, h7, h8, h9, h10, h11, h12, h13, h14⟩ := h
    simp only [OpCode.decode, h1, h2, h3, h4, h5, h6, h7, h8, h9, h10, h11,
      h12, h13, h14, if_false]
  · intro h
    simp only [coveredOpcodes, List.mem_cons, List.not_mem_nil, or_false] at h
    rcases h with h | h | h | h | h | h | h | h | h | h | h | h | h | h <;>
      simp [OpCode.decode, h, apply_ite isIllegal, isIllegal_new,
        isIllegal_with_major_minor, isIllegal_panics]

/-- C3 witness: the uncovered opcode 127 yields the illegal-opcode error
and the covered opcode 51 never does. -/
theorem C3_witness :
    OpCode.decode 127 0 = DecodeResult.illegal 127
    ∧ isIllegal (OpCode.decode 51 0) = false :=
  ⟨(C3_decode_amended 127 0).1 (by decide), (C3_decode_amended 51 0).2 (by decide)⟩

/-- C7: with a zero divisor read from rs2, the DIV and DIVU handlers write
the all-ones 64-bit value to rd, REM and REMU write the dividend read from
rs1 unchanged, and REMUW writes the zero-extended low 32 bits of the
dividend. -/
theorem C7_divide_by_zero (st : HartState) (dec : RType)
    (hz : st.read_register dec.rs2 = 0) (h0 : dec.rd ≠ 0)
    (hlen : dec.rd < st.registers.length) :
    ((execute_reg_reg_op st dec div_op).read_register dec.rd = 2 ^ 64 - 1)
    ∧ ((execute_reg_reg_op st dec divu_op).read_register dec.rd = 2 ^ 64 - 1)
    ∧ ((execute_reg_reg_op st dec rem_op).read_register dec.rd
        = st.read_register dec.rs1)
    ∧ ((execute_reg_reg_op st dec remu_op).read_register dec.rd
        = st.read_register dec.rs1)
    ∧ (process_remuw st dec
        = some (st.write_register dec.rd (st.read_register dec.rs1 % 2 ^ 32))) := by
  refine ⟨?_, ?_, ?_, ?_, ?_⟩
  · unfold execute_reg_reg_op
    rw [hz]
    rw [show div_op (st.read_register dec.rs1) 0 = 2 ^ 64 - 1 from rfl]
    exact read_register_write_register_self _ h0 hlen
  · unfold execute_reg_reg_op
    rw [hz]
    rw [show divu_op (st.read_register dec.rs1) 0 = 2 ^ 64 - 1 from rfl]
    exact read_register_write_register_self _ h0 hlen
  · unfold execute_reg_reg_op
    rw [hz]
    rw [show rem_op (st.read_register dec.rs1) 0 = st.read_register dec.rs1
      from rfl]
    exact read_register_write_register_self _ h0 hlen
  · unfold execute_reg_reg_op
    rw [hz]
    rw [show remu_op (st.read_register dec.rs1) 0 = st.read_register dec.rs1
      from rfl]
    exact read_register_write_register_self _ h0 hlen
  · unfold process_remuw
    rw [hz]
    rfl

/-- C7 witness: with x4 zero and x1 holding 1 in the concrete hart, the
five divide-family handlers produce the tabulated divide-by-zero
results in register 3. -/
theorem C7_witness :
    ((execute_reg_reg_op hart1 ⟨3, 1, 4⟩ div_op).read_register 3 = 2 ^ 64 - 1)
    ∧ ((execute_reg_reg_op hart1 ⟨3, 1, 4⟩ divu_op).read_register 3 = 2 ^ 64 - 1)
    ∧ ((execute_reg_reg_op hart1 ⟨3, 1, 4⟩ rem_op).read_register 3
        = hart1.read_register 1)
    ∧ ((execute_reg_reg_op hart1 ⟨3, 1, 4⟩ remu_op).read_register 3
        = hart1.read_register 1)
    ∧ (process_remuw hart1 ⟨3, 1, 4⟩
        = some (hart1.write_register 3 (hart1.read_register 1 % 2 ^ 32))) :=
  C7_divide_by_zero hart1 ⟨3, 1, 4⟩ (by decide) (by decide) (by decide)

/-- C9 counterexample: through the monitor path, a write of 5 to register
0 lands in the backing slot and a later read of register 0 returns 5, not
0: register 0 is not hardwired to zero on the memory-mapped path. -/
theorem C9_counterexample :
    ((MemoryMonitor.store_register P0 monE 0 5).bind (fun m =>
      m.commit.bind (fun p =>
        (MemoryMonitor.load_register P0 p.1 0).map Prod.fst))) = some 5
    ∧ (5 : Nat) ≠ 0 := by
  constructor
  · rfl
  · decide

/-- C9 amended: the HartState register file hardwires register 0 (reads
give 0 and writes change nothing), but the monitor memory-mapped path
does not special-case register 0: store_register stores the given data
into the register-0 slot and load_register (once the bootstrap flag is
set) simply loads that slot. -/
theorem C9_x0_semantics (st : HartState) (d : Nat) (P : Platform)
    (m : MemoryMonitor) :
    (st.read_register 0 = 0)
    ∧ (st.write_register 0 d = st)
    ∧ (MemoryMonitor.store_register P m 0 d
        = m.store_u64 (get_register_addr P 0) d)
    ∧ (m.initial = true →
        MemoryMonitor.load_register P m 0
          = (m.load_u64 (get_register_addr P 0)).map (fun v => (v, m))) := by
  refine ⟨rfl, rfl, ?_, ?_⟩
  · unfold MemoryMonitor.store_register
    rw [if_neg]
    intro hh
    exact absurd hh.1 (by decide)
  · intro hinit
    unfold MemoryMonitor.load_register
    rw [if_neg]
    intro hh
    exact absurd hh.1 (by decide)

/-- C9 witness: the amended x0 semantics at the concrete hart, platform
and monitor. -/
theorem C9_witness :
    (hart1.read_register 0 = 0)
    ∧ (hart1.write_register 0 7 = hart1)
    ∧ (MemoryMonitor.store_register P0 monE 0 5
        = monE.store_u64 (get_register_addr P0 0) 5)
    ∧ (MemoryMonitor.load_register P0 monE 0
        = (monE.load_u64 (get_register_addr P0 0)).map (fun v => (v, monE))) :=
  ⟨(C9_x0_semantics hart1 7 P0 monE).1, (C9_x0_semantics hart1 7 P0 monE).2.1,
    (C9_x0_semantics hart1 5 P0 monE).2.2.1,
    (C9_x0_semantics hart1 5 P0 monE).2.2.2 rfl⟩

/-- C10 counterexample: patching the symbol runtime.doInit against an
empty image panics through the unwrap in the debug print; the loader does
not return a diagnostic error value for the missing address. -/
theorem C10_counterexample :
    patch_symbols_apply [] [("runtime.doInit", 4)] = LoaderOutcome.panics
    ∧ (patch_symbols_apply [] [("runtime.doInit", 4)]).isErr = false := by
  constructor
  · rfl
  · rfl

/-- C10 amended: for a symbol in the patch set, a st_value absent from the
projected image makes the pass panic (an unwrap failure, not a returned
diagnostic error, though it does not silently proceed), and a present
st_value is overwritten with the return-instruction word 0x00008067. -/
theorem C10_patch_behaviour (image : List (Nat × Nat)) (name : String)
    (v w : Nat) (hname : name ∈ patch_symbol_names) :
    (image_get image v = none →
      patch_symbols_apply image [(name, v)] = LoaderOutcome.panics)
    ∧ (image_get image v = some w →
      patch_symbols_apply image [(name, v)]
          = LoaderOutcome.ok (image_insert image v 0x00008067)
        ∧ image_get (image_insert image v 0x00008067) v = some 0x00008067) := by
  constructor
  · intro hget
    unfold patch_symbols_apply
    rw [if_pos hname, hget]
  · intro hget
    constructor
    · unfold patch_symbols_apply
      rw [if_pos hname, hget]
      rfl
    · exact image_get_insert_self image v 0x00008067

/-- C10 witness: the patch pass panics on an empty image and patches a
present entry at address 4 to 0x00008067. -/
theorem C10_witness :
    patch_symbols_apply [] [("runtime.doInit", 4)] = LoaderOutcome.panics
    ∧ patch_symbols_apply [(4, 99)] [("runtime.doInit", 4)]
        = LoaderOutcome.ok (image_insert [(4, 99)] 4 0x00008067)
    ∧ image_get (image_insert [(4, 99)] 4 0x00008067) 4 = some 0x00008067 :=
  ⟨(C10_patch_behaviour [] "runtime.doInit" 4 0 (by decide)).1 rfl,
    ((C10_patch_behaviour [(4, 99)] "runtime.doInit" 4 99 (by decide)).2 rfl).1,
    ((C10_patch_behaviour [(4, 99)] "runtime.doInit" 4 99 (by decide)).2 rfl).2⟩

/-- C2 counterexample: the register-2 slot of the concrete monitor holds
the nonzero value 5, yet the first read of register 2 still bootstraps:
it returns the configured stack address 1024 instead of the stored 5 and
issues the eight-byte bootstrap store. -/
theorem C2_counterexample :
    monB.load_u64 (get_register_addr P0 2) = some 5
    ∧ (MemoryMonitor.load_register P0 monB 2).map Prod.fst = some 1024
    ∧ (1024 : Nat) ≠ 5
    ∧ (MemoryMonitor.load_register P0 monB 2).map
        (fun p => p.2.pending_writes.length) = some 8 := by
  refine ⟨rfl, rfl, by decide, rfl⟩

/-- C2 amended: the register-2 bootstrap fires at the first read of
register 2 unconditionally, whatever value the slot holds: while the
initial flag is unset, load_register 2 stores the configured stack
address into the slot and returns it; once the flag is set it loads the
slot. -/
theorem C2_bootstrap_unconditional (P : Platform) (m : MemoryMonitor)
    (halign : get_register_addr P 2 % 8 = 0) :
    (m.initial = false →
      MemoryMonitor.load_register P m 2
        = some (P.stack_initial_address,
            MemoryMonitor.store_region { m with initial := true }
              (get_register_addr P 2) (leBytes 8 P.stack_initial_address)))
    ∧ (m.initial = true →
      MemoryMonitor.load_register P m 2
        = (m.load_u64 (get_register_addr P 2)).map (fun v => (v, m))) := by
  constructor
  · intro hinit
    unfold MemoryMonitor.load_register
    rw [if_pos ⟨rfl, hinit⟩]
    unfold MemoryMonitor.store_u64
    rw [if_pos halign]
  · intro hinit
    unfold MemoryMonitor.load_register
    rw [if_neg]
    intro hh
    rw [hinit] at hh
    exact absurd hh.2 (by decide)

/-- C2 witness: the amended bootstrap behaviour at the concrete platform
and monitor whose register-2 slot holds 5. -/
theorem C2_witness :
    MemoryMonitor.load_register P0 monB 2
      = some (1024,
          MemoryMonitor.store_region { monB with initial := true }
            (get_register_addr P0 2) (leBytes 8 1024)) :=
  (C2_bootstrap_unconditional P0 monB (by decide)).1 rfl

/-- C6 counterexample: the word atomic read-modify-write helper performs
no alignment check: an AMOADD.W with rs1 holding the misaligned address 1
succeeds over the recording memory and issues a word write, instead of
returning the alignment fault the claim promises for every atomic. -/
theorem C6_counterexample :
    ((1 : Nat) &&& align_mask MemAccessSize.Word ≠ 0)
    ∧ execute_amow recMem exec1 ⟨2, 1, 3⟩ (fun a b => (a + b) % 2 ^ 64)
        = .ok ⟨hart1.write_register 2 0, [(1, MemAccessSize.Word, 0)]⟩ := by
  exact ⟨by decide, rfl⟩

/-- C6 amended: loads, stores and the reservation-style atomics (LR and
SC) fault with AlignmentFault on a misaligned effective address, before
any memory write or register write; the read-modify-write atomics
(execute_amow and execute_amod) perform no alignment check at all. -/
theorem C6_alignment_faults {σ : Type} (M : MemIface σ) (e : Exec σ)
    (decI : IType) (decS : SType) (decA : AType) (size : MemAccessSize)
    (signed : Bool) :
    (((e.hart_state.read_register decI.rs1 + immU64 decI.imm) % 2 ^ 64)
        &&& align_mask size ≠ 0 →
      execute_load M e decI size signed
        = .error (.AlignmentFault
            ((e.hart_state.read_register decI.rs1 + immU64 decI.imm) % 2 ^ 64)))
    ∧ (((e.hart_state.read_register decS.rs1 + immU64 decS.imm) % 2 ^ 64)
        &&& align_mask size ≠ 0 →
      execute_store M e decS size
        = .error (.AlignmentFault
            ((e.hart_state.read_register decS.rs1 + immU64 decS.imm) % 2 ^ 64)))
    ∧ (e.hart_state.read_register decA.rs1 &&& align_mask size ≠ 0 →
      execute_amo_load M e decA size
          = .error (.AlignmentFault (e.hart_state.read_register decA.rs1))
        ∧ execute_amo_store M e decA size
          = .error (.AlignmentFault (e.hart_state.read_register decA.rs1))) := by
  refine ⟨?_, ?_, ?_⟩
  · intro h
    simp only [execute_load]
    split
    · rfl
    · rename_i hfalse
      exact absurd h hfalse
  · intro h
    simp only [execute_store]
    split
    · rfl
    · rename_i hfalse
      exact absurd h hfalse
  · intro h
    constructor
    · simp only [execute_amo_load]
      split
      · rfl
      · rename_i hfalse
        exact absurd h hfalse
    · simp only [execute_amo_store]
      split
      · rfl
      · rename_i hfalse
        exact absurd h hfalse

/-- C6 witness: at the concrete executor whose x1 holds the misaligned
address 1, word-sized load, store, LR and SC all return AlignmentFault 1. -/
theorem C6_witness :
    execute_load recMem exec1 ⟨2, 1, 0⟩ MemAccessSize.Word true
        = .error (.AlignmentFault 1)
    ∧ execute_store recMem exec1 ⟨1, 2, 0⟩ MemAccessSize.Word
        = .error (.AlignmentFault 1)
    ∧ execute_amo_load recMem exec1 ⟨2, 1, 3⟩ MemAccessSize.Word
        = .error (.AlignmentFault 1)
    ∧ execute_amo_store recMem exec1 ⟨2, 1, 3⟩ MemAccessSize.Word
        = .error (.AlignmentFault 1) := by
  obtain ⟨h1, h2, h3⟩ := C6_alignment_faults recMem exec1 ⟨2, 1, 0⟩ ⟨1, 2, 0⟩
    ⟨2, 1, 3⟩ MemAccessSize.Word true
  exact ⟨h1 (by decide), h2 (by decide), (h3 (by decide)).1, (h3 (by decide)).2⟩

/-- C5: the Memory implementation of the monitor never reports failure
through the interface: read_mem never returns a normal none result,
write_mem never returns false, a load at an address outside every region
is a panic inside load_u8 (the none of the embedding), and a pending
store outside every region is detected only at commit, which logs its
address and skips it without failing. -/
theorem C5_monitor_never_fails (m : MemoryMonitor) (addr : Nat)
    (size : MemAccessSize) (data : Nat) (op : OpCodeResult) (e : MemStore) :
    (m.read_mem addr size ≠ some none)
    ∧ ((m.write_mem addr size data).map Prod.snd ≠ some false)
    ∧ (m.space.inRange addr = false → m.load_u8 addr = none)
    ∧ (m.op_result = some op → m.pending_writes = [e] →
        m.space.inRange e.addr = false →
        m.commit = some (⟨m.space, [], none,
          m.syscalls ++ (match op.syscall with | some sc => [sc] | none => []),
          m.initial⟩, [e.addr])) := by
  refine ⟨?_, ?_, ?_, ?_⟩
  · cases size with
    | Byte =>
      rcases hx : m.load_u8 addr with _ | v <;>
        simp [MemoryMonitor.read_mem, hx]
    | HalfWord =>
      rcases hx : m.load_u16 addr with _ | v <;>
        simp [MemoryMonitor.read_mem, hx]
    | Word =>
      rcases hx : m.load_u32 addr with _ | v <;>
        simp [MemoryMonitor.read_mem, hx]
    | DoubleWord =>
      rcases hx : m.load_u64 addr with _ | v <;>
        simp [MemoryMonitor.read_mem, hx]
  · cases size with
    | Byte => simp [MemoryMonitor.write_mem]
    | HalfWord =>
      rcases hx : m.store_u16 addr (data % 2 ^ 16) with _ | m2 <;>
        simp [MemoryMonitor.write_mem, hx]
    | Word =>
      rcases hx : m.store_u32 addr (data % 2 ^ 32) with _ | m2 <;>
        simp [MemoryMonitor.write_mem, hx]
    | DoubleWord =>
      rcases hx : m.store_u64 addr data with _ | m2 <;>
        simp [MemoryMonitor.write_mem, hx]
  · intro h
    unfold MemoryMonitor.load_u8 MemorySpace.read_mem_byte
    exact readByteList_none h
  · intro hop hpend hout
    simp only [MemoryMonitor.commit, hpend, hop, commitWrites_skip hout]

/-- C5 witness: the interface outcomes at the concrete monitors: a
successful byte read and write over monA, the panic of load_u8 outside
every region of monC, and the logged-and-skipped commit of the
out-of-range pending write of monC. -/
theorem C5_witness :
    (monA.read_mem 0 MemAccessSize.Byte ≠ some none)
    ∧ ((monA.write_mem 0 MemAccessSize.Byte 0).map Prod.snd ≠ some false)
    ∧ monC.load_u8 0 = none
    ∧ monC.commit = some (⟨⟨[]⟩, [], none, [], false⟩, [0]) :=
  ⟨(C5_monitor_never_fails monA 0 .Byte 0 ⟨none, false⟩ ⟨0, 5⟩).1,
    (C5_monitor_never_fails monA 0 .Byte 0 ⟨none, false⟩ ⟨0, 5⟩).2.1,
    (C5_monitor_never_fails monC 0 .Byte 0 ⟨none, false⟩ ⟨0, 5⟩).2.2.1 (by decide),
    (C5_monitor_never_fails monC 0 .Byte 0 ⟨none, false⟩ ⟨0, 5⟩).2.2.2 rfl rfl
      (by decide)⟩

theorem toI64_emod {a : Nat} (h : a < 2 ^ 64) :
    toI64 a % (2 ^ 64 : Int) = (a : Int) := by
  unfold toI64
  rw [Nat.mod_eq_of_lt h]
  by_cases h1 : a < 2 ^ 63
  · rw [if_pos h1]
    exact Int.emod_eq_of_lt (by positivity) (by exact_mod_cast h)
  · rw [if_neg h1]
    omega

theorem toI64_ne_zero {b : Nat} (hb : b < 2 ^ 64) (h : b ≠ 0) : toI64 b ≠ 0 := by
  unfold toI64
  rw [Nat.mod_eq_of_lt hb]
  by_cases h1 : b < 2 ^ 63
  · rw [if_pos h1]
    exact_mod_cast h
  · rw [if_neg h1]
    intro hh
    have h2 : (b : Int) = 2 ^ 64 := by omega
    have h3 : b = 2 ^ 64 := by exact_mod_cast h2
    omega

theorem commit_space (m : MemoryMonitor) (r : OpCodeResult)
    (hop : m.op_result = some r) :
    m.commit = some (⟨(commitWrites m.space m.pending_writes).1, [], none,
      m.syscalls ++ (match r.syscall with | some sc => [sc] | none => []),
      m.initial⟩, (commitWrites m.space m.pending_writes).2) := by
  simp only [MemoryMonitor.commit, hop]

theorem commit_load_u8 (m : MemoryMonitor) (r : OpCodeResult) (x : Nat)
    (hop : m.op_result = some r) (hwf : m.space.WF)
    (hin : m.space.inRange x = true) :
    m.commit.bind (fun p => p.1.load_u8 x)
      = (match lastDataAt m.pending_writes x with
         | some d => some (d % 256)
         | none => m.space.read_mem_byte x) := by
  rw [commit_space m r hop]
  rw [Option.some_bind]
  show (commitWrites m.space m.pending_writes).1.read_mem_byte x = _
  exact commitWrites_read hwf hin

theorem getD_lt_256_of_leBytes {n v i : Nat} (hi : i < n) :
    (leBytes n v).getD i 0 < 256 := by
  have hlen : i < (leBytes n v).length := by rw [leBytes_length]; exact hi
  rw [List.getD_eq_getElem?_getD, List.getElem?_eq_getElem hlen,
    Option.getD_some]
  exact leBytes_lt n v _ (List.getElem_mem hlen)

/-- C8: for a nonzero divisor, DIVU and REMU satisfy the exact Euclidean
identity on 64-bit values, and DIV and REM satisfy it modulo 2 to the 64
(two-complement wrapping), including the i64 minimum divided by minus
one. -/
theorem C8_division_identities (a b : Nat) (ha : a < 2 ^ 64) (hb : b < 2 ^ 64)
    (hb0 : b ≠ 0) :
    (divu_op a b * b + remu_op a b = a)
    ∧ ((div_op a b * b + rem_op a b) % 2 ^ 64 = a) := by
  constructor
  · unfold divu_op remu_op
    rw [if_neg hb0, if_neg hb0]
    calc a / b * b + a % b = b * (a / b) + a % b := by ring
      _ = a := Nat.div_add_mod a b
  · unfold div_op rem_op
    rw [if_neg hb0, if_neg hb0]
    have hAm : toI64 a % (2 ^ 64 : Int) = (a : Int) := toI64_emod ha
    have hBm : toI64 b % (2 ^ 64 : Int) = (b : Int) := toI64_emod hb
    have hx : ((ofI64 ((toI64 a).tdiv (toI64 b)) : Nat) : Int)
        = (toI64 a).tdiv (toI64 b) % (2 ^ 64 : Int) := by
      unfold ofI64
      exact Int.toNat_of_nonneg (Int.emod_nonneg _ (by positivity))
    have hy : ((ofI64 ((toI64 a).tmod (toI64 b)) : Nat) : Int)
        = (toI64 a).tmod (toI64 b) % (2 ^ 64 : Int) := by
      unfold ofI64
      exact Int.toNat_of_nonneg (Int.emod_nonneg _ (by positivity))
    have hkey : (toI64 a).tdiv (toI64 b) * toI64 b + (toI64 a).tmod (toI64 b)
        = toI64 a := by
      rw [mul_comm]
      exact Int.tdiv_add_tmod (toI64 a) (toI64 b)
    have e1 : Int.ModEq (2 ^ 64) ((toI64 a).tdiv (toI64 b) % 2 ^ 64)
        ((toI64 a).tdiv (toI64 b)) := Int.emod_emod_of_dvd _ dvd_rfl
    have e2 : Int.ModEq (2 ^ 64) ((b : Nat) : Int) (toI64 b) := by
      show ((b : Nat) : Int) % 2 ^ 64 = toI64 b % 2 ^ 64
      rw [hBm]
      exact Int.emod_eq_of_lt (by positivity) (by exact_mod_cast hb)
    have e3 : Int.ModEq (2 ^ 64) ((toI64 a).tmod (toI64 b) % 2 ^ 64)
        ((toI64 a).tmod (toI64 b)) := Int.emod_emod_of_dvd _ dvd_rfl
    have e4 : Int.ModEq (2 ^ 64)
        ((toI64 a).tdiv (toI64 b) % 2 ^ 64 * ((b : Nat) : Int)
          + (toI64 a).tmod (toI64 b) % 2 ^ 64)
        (toI64 a) := by
      have := (e1.mul e2).add e3
      rwa [hkey] at this
    have h6 : ((toI64 a).tdiv (toI64 b) % 2 ^ 64 * ((b : Nat) : Int)
        + (toI64 a).tmod (toI64 b) % 2 ^ 64) % 2 ^ 64 = ((a : Nat) : Int) := by
      have e5 : ((toI64 a).tdiv (toI64 b) % 2 ^ 64 * ((b : Nat) : Int)
          + (toI64 a).tmod (toI64 b) % 2 ^ 64) % 2 ^ 64 = toI64 a % 2 ^ 64 := e4
      rw [e5, hAm]
    have h7 : (((ofI64 ((toI64 a).tdiv (toI64 b)) * b
        + ofI64 ((toI64 a).tmod (toI64 b))) : Nat) : Int) % (2 ^ 64 : Int)
        = ((a : Nat) : Int) := by
      push_cast
      rw [hx, hy]
      push_cast at h6 ⊢
      exact h6
    have h8 : (((ofI64 ((toI64 a).tdiv (toI64 b)) * b
        + ofI64 ((toI64 a).tmod (toI64 b))) % 2 ^ 64 : Nat) : Int)
        = ((a : Nat) : Int) := by
      push_cast
      exact h7
    exact_mod_cast h8

/-- C8 witness: the identities at the wrap-around corner case, the i64
minimum dividend with divisor minus one. -/
theorem C8_witness :
    (divu_op (2 ^ 63) (2 ^ 64 - 1) * (2 ^ 64 - 1)
        + remu_op (2 ^ 63) (2 ^ 64 - 1) = 2 ^ 63)
    ∧ ((div_op (2 ^ 63) (2 ^ 64 - 1) * (2 ^ 64 - 1)
        + rem_op (2 ^ 63) (2 ^ 64 - 1)) % 2 ^ 64 = 2 ^ 63) :=
  C8_division_identities (2 ^ 63) (2 ^ 64 - 1) (by norm_num) (by norm_num)
    (by norm_num)

/-- C1 counterexample: two stores of different bytes to the same address
within one step both stay in the pending buffer (two entries for one
address), and commit makes the numerically larger value 2 the committed
byte even though the last store wrote 1. -/
theorem C1_counterexample :
    ((monA.store_u8 0 2).store_u8 0 1).pending_writes
        = [⟨0, 1⟩, ⟨0, 2⟩]
    ∧ ((monA.store_u8 0 2).store_u8 0 1).commit.map (fun p => p.1.load_u8 0)
        = some (some 2) := by
  exact ⟨rfl, rfl⟩

/-- C1 amended: the pending buffer holds at most one entry per pair of
address and value (insertion keeps the list strictly sorted in the
derived lexicographic order, which commit follows in ascending order), so
for each byte address the entry with the greatest value, not the last
written one, determines the committed byte. -/
theorem C1_commit_order (m : MemoryMonitor) (a : Nat) (e : MemStore)
    (r : OpCodeResult) (hs : StoresSorted m.pending_writes)
    (hop : m.op_result = some r) (hwf : m.space.WF)
    (hin : m.space.inRange a = true) (hmem : e ∈ m.pending_writes)
    (ha : e.addr = a)
    (hmax : ∀ e2 ∈ m.pending_writes, e2.addr = a → e2.data ≤ e.data) :
    (m.commit.bind (fun p => p.1.load_u8 a) = some (e.data % 256))
    ∧ ∀ addr data : Nat,
        StoresSorted ((m.store_u8 addr data).pending_writes) := by
  constructor
  · rw [commit_load_u8 m r a hop hwf hin,
      lastDataAt_sorted_max hs hmem ha hmax]
  · intro addr data
    unfold MemoryMonitor.store_u8
    exact insertStore_sorted _ hs

/-- C1 witness: the amended commit behaviour at the concrete monitor
holding pending bytes 1 and 2 for address 0: the committed byte is 2, and
one more store keeps the buffer strictly sorted. -/
theorem C1_witness :
    (((monA.store_u8 0 2).store_u8 0 1).commit.bind (fun p => p.1.load_u8 0)
        = some (2 % 256))
    ∧ StoresSorted ((((monA.store_u8 0 2).store_u8 0 1).store_u8 4 9).pending_writes) :=
  ⟨(C1_commit_order ((monA.store_u8 0 2).store_u8 0 1) 0 ⟨0, 2⟩ ⟨none, false⟩
      (by decide) rfl (by decide) (by decide) (by decide) rfl (by decide)).1,
    (C1_commit_order ((monA.store_u8 0 2).store_u8 0 1) 0 ⟨0, 2⟩ ⟨none, false⟩
      (by decide) rfl (by decide) (by decide) (by decide) rfl (by decide)).2 4 9⟩

theorem commit_load_bytes (m : MemoryMonitor) (r : OpCodeResult) (n x : Nat)
    (bs : List Nat) (hop : m.op_result = some r) (hwf : m.space.WF)
    (hlen : bs.length = n)
    (h : ∀ i, i < n → m.space.inRange (x + i) = true
      ∧ lastDataAt m.pending_writes (x + i) = some (bs.getD i 0)
      ∧ bs.getD i 0 < 256) :
    m.commit.bind (fun p => p.1.load_bytes n x) = some bs := by
  rw [commit_space m r hop, Option.some_bind]
  apply load_bytes_eq n x bs hlen
  intro i hi
  show (commitWrites m.space m.pending_writes).1.read_mem_byte (x + i) = _
  rw [commitWrites_read hwf (h i hi).1, (h i hi).2.1]
  show some (bs.getD i 0 % 256) = _
  rw [Nat.mod_eq_of_lt (h i hi).2.2]

/-- C4 counterexample: a doubleword store followed directly by a load of
the same address returns the old image value 0, not the stored 1, because
stores are pending until commit; likewise a region store of the byte 7 is
invisible to an immediate byte load. -/
theorem C4_counterexample :
    ((monA.store_u64 0 1).bind (fun m2 => m2.load_u64 0) = some 0)
    ∧ (0 : Nat) ≠ 1
    ∧ ((monA.store_region 0 [7]).load_u8 0 = some 0)
    ∧ (0 : Nat) ≠ 7 := by
  exact ⟨rfl, by decide, rfl, by decide⟩

/-- C4 amended: with a commit between the store and the load, the
round-trip laws hold: storing a doubleword at an aligned in-range address
and committing makes load_u64 return it, and after store_region and a
commit each byte loads back individually. -/
theorem C4_roundtrip (m : MemoryMonitor) (r : OpCodeResult) (a v : Nat)
    (bytes : List Nat) (hpend : m.pending_writes = [])
    (hop : m.op_result = some r) (hwf : m.space.WF) (ha8 : a % 8 = 0)
    (hv : v < 2 ^ 64) :
    ((∀ i, i < 8 → m.space.inRange (a + i) = true) →
      (m.store_u64 a v).bind
          (fun m2 => m2.commit.bind (fun p => p.1.load_u64 a))
        = some v)
    ∧ ((∀ b ∈ bytes, b < 256) →
      (∀ j, j < bytes.length → m.space.inRange (a + j) = true) →
      ∀ i, i < bytes.length →
        (m.store_region a bytes).commit.bind (fun p => p.1.load_u8 (a + i))
          = some (bytes.getD i 0)) := by
  constructor
  · intro hin
    have hsu : m.store_u64 a v = some (m.store_region a (leBytes 8 v)) := by
      unfold MemoryMonitor.store_u64
      rw [if_pos ha8]
    rw [hsu, Option.some_bind]
    have hfld := store_region_fields (leBytes 8 v) m a
    have hop2 : (m.store_region a (leBytes 8 v)).op_result = some r := by
      rw [hfld.2.1]; exact hop
    have hwf2 : (m.store_region a (leBytes 8 v)).space.WF := by
      rw [hfld.1]; exact hwf
    have hpend2 : (m.store_region a (leBytes 8 v)).pending_writes
        = storeEntries a (leBytes 8 v) := by
      rw [store_region_pending (leBytes 8 v) m a
        (by rw [hpend]; intro e he; simp at he), hpend]
      rfl
    have h64 : (m.store_region a (leBytes 8 v)).commit.bind
          (fun p => p.1.load_u64 a)
        = ((m.store_region a (leBytes 8 v)).commit.bind
            (fun p => p.1.load_bytes 8 a)).map assembleLE := by
      rcases (m.store_region a (leBytes 8 v)).commit with _ | p
      · rfl
      · show p.1.load_u64 a = _
        unfold MemoryMonitor.load_u64
        rw [if_pos ha8]
        rfl
    rw [h64, commit_load_bytes (m.store_region a (leBytes 8 v)) r 8 a
      (leBytes 8 v) hop2 hwf2 (leBytes_length 8 v) ?_]
    · show some (assembleLE (leBytes 8 v)) = some v
      rw [assembleLE_leBytes]
      have h256 : (256 : Nat) ^ 8 = 2 ^ 64 := by norm_num
      rw [h256, Nat.mod_eq_of_lt hv]
    · intro i hi
      refine ⟨by rw [hfld.1]; exact hin i hi, ?_, getD_lt_256_of_leBytes hi⟩
      rw [hpend2]
      exact lastDataAt_storeEntries (leBytes 8 v) a i
        (by rw [leBytes_length]; exact hi)
  · intro hb hinj i hi
    have hfld := store_region_fields bytes m a
    have hop2 : (m.store_region a bytes).op_result = some r := by
      rw [hfld.2.1]; exact hop
    have hwf2 : (m.store_region a bytes).space.WF := by
      rw [hfld.1]; exact hwf
    have hpend2 : (m.store_region a bytes).pending_writes
        = storeEntries a bytes := by
      rw [store_region_pending bytes m a
        (by rw [hpend]; intro e he; simp at he), hpend]
      rfl
    rw [commit_load_u8 (m.store_region a bytes) r (a + i) hop2 hwf2
      (by rw [hfld.1]; exact hinj i hi)]
    rw [hpend2, lastDataAt_storeEntries bytes a i hi]
    show some (bytes.getD i 0 % 256) = _
    have hlt : bytes.getD i 0 < 256 := by
      rw [List.getD_eq_getElem?_getD, List.getElem?_eq_getElem hi,
        Option.getD_some]
      exact hb _ (List.getElem_mem hi)
    rw [Nat.mod_eq_of_lt hlt]

/-- C4 witness: over the concrete sixteen-byte region, a committed
doubleword store of 0xdeadbeefcafebabe loads back, and after a committed
region store of bytes 1, 2, 3 the byte at offset 1 loads back as 2. -/
theorem C4_witness :
    ((monA.store_u64 0 0xdeadbeefcafebabe).bind
        (fun m2 => m2.commit.bind (fun p => p.1.load_u64 0))
      = some 0xdeadbeefcafebabe)
    ∧ ((monA.store_region 0 [1, 2, 3]).commit.bind
        (fun p => p.1.load_u8 (0 + 1)) = some ([1, 2, 3].getD 1 0)) :=
  ⟨(C4_roundtrip monA ⟨none, false⟩ 0 0xdeadbeefcafebabe [1, 2, 3] rfl rfl
      (by decide) (by decide) (by decide)).1 (by decide),
    (C4_roundtrip monA ⟨none, false⟩ 0 0xdeadbeefcafebabe [1, 2, 3] rfl rfl
      (by decide) (by decide) (by decide)).2 (by decide) (by decide) 1
      (by decide)⟩

end ZkVM
